import Mathlib

/-!
# Key encoding and allowance model of `litewallet/slim/module`

A shallow embedding of

* `stake/types/keys.go` (namespace `Stake`),
* `distribution/types/keys.go` (namespace `Distribution`),
* `approve/types/approve.go` (namespace `Approve`),

followed by theorems about the embedded functions.

Conventions of the embedding

* a Go `[]byte` is a `List Byte`; a slice is modelled by its contents, with
  capacity equal to length;
* a Go `int64` is an `Int` in the range described by `isInt64`; a `uint64` is
  a `Nat` below `2 ^ 64`; the conversions `uint64(x)` and `int64(u)` are the
  two's-complement ones;
* a function that can panic returns `Except String α`, the error being the
  panic message; a Go `error` result is an `Option`, `none` being `nil`.
-/

namespace Litewallet

/-! ## Go primitives -/

deriving instance DecidableEq for Except

/-- A Go `byte`. -/
abbrev Byte := Fin 256

/-- The conversion `byte(v)` of an unsigned integer: the low eight bits. -/
def byte (v : Nat) : Byte := ⟨v % 256, Nat.mod_lt v (by decide)⟩

/-- The values of Go's `int64`. -/
def isInt64 (x : Int) : Prop := -(2 : Int) ^ 63 ≤ x ∧ x < (2 : Int) ^ 63

instance (x : Int) : Decidable (isInt64 x) :=
  inferInstanceAs (Decidable (-(2 : Int) ^ 63 ≤ x ∧ x < (2 : Int) ^ 63))

/-- The conversion `uint64(x)` of an `int64`: reduction modulo `2 ^ 64`. -/
def uint64 (x : Int) : Nat := (x % (2 : Int) ^ 64).toNat

/-- The conversion `int64(u)` of a `uint64`: values from `2 ^ 63` on wrap
around to the negative numbers. -/
def int64 (u : Nat) : Int :=
  if u % 2 ^ 64 < 2 ^ 63 then ((u % 2 ^ 64 : Nat) : Int)
  else ((u % 2 ^ 64 : Nat) : Int) - (2 : Int) ^ 64

/-- Go's `make([]byte, n)`: `n` zero bytes. -/
def make (n : Nat) : List Byte := List.replicate n 0

/-- The index expression `s[i]`; panics when `i` is out of range. -/
def index (s : List Byte) (i : Nat) : Except String Byte :=
  match s.get? i with
  | some b => .ok b
  | none => .error "index out of range"

/-- The slice expression `s[lo:hi]`; panics unless `lo ≤ hi ≤ len(s)`. -/
def slice (s : List Byte) (lo hi : Nat) : Except String (List Byte) :=
  if lo ≤ hi ∧ hi ≤ s.length then .ok ((s.drop lo).take (hi - lo))
  else .error "slice bounds out of range"

/-- The slice expression `s[lo:]`, that is `s[lo:len(s)]`. -/
def sliceFrom (s : List Byte) (lo : Nat) : Except String (List Byte) :=
  slice s lo s.length

/-- The statement `copy(bz[lo:hi], src)` seen as a function of the buffer
`bz`: the slice expression panics unless `lo ≤ hi ≤ len(bz)`; otherwise
`min (hi - lo) len(src)` bytes of `src` overwrite `bz` from offset `lo`. -/
def copyInto (bz : List Byte) (lo hi : Nat) (src : List Byte) :
    Except String (List Byte) :=
  if lo ≤ hi ∧ hi ≤ bz.length then
    let n := min (hi - lo) src.length
    .ok (bz.take lo ++ src.take n ++ bz.drop (lo + n))
  else .error "slice bounds out of range"

/-- The eight bytes of `v`, most significant first:
`byte(v >> 56), byte(v >> 48), ..., byte(v)`. -/
def beBytes (v : Nat) : List Byte :=
  [byte (v / 2 ^ 56), byte (v / 2 ^ 48), byte (v / 2 ^ 40), byte (v / 2 ^ 32),
   byte (v / 2 ^ 24), byte (v / 2 ^ 16), byte (v / 2 ^ 8), byte v]

/-- The eight bytes of `v`, least significant first. -/
def leBytes (v : Nat) : List Byte :=
  [byte v, byte (v / 2 ^ 8), byte (v / 2 ^ 16), byte (v / 2 ^ 24),
   byte (v / 2 ^ 32), byte (v / 2 ^ 40), byte (v / 2 ^ 48), byte (v / 2 ^ 56)]

namespace BigEndian

/-- The function `binary.BigEndian.PutUint64(b, v)` as a function of the
buffer: panics (on its bounds check `b[7]`) when `b` has fewer than eight
bytes, otherwise overwrites the first eight bytes of `b`. -/
def PutUint64 (b : List Byte) (v : Nat) : Except String (List Byte) :=
  if b.length < 8 then .error "index out of range"
  else .ok (beBytes v ++ b.drop 8)

/-- The function `binary.BigEndian.Uint64(b)`: panics when `b` has fewer
than eight bytes, otherwise reads the first eight, most significant first.
The shifted bytes occupy disjoint bits, so their bitwise or is their sum. -/
def Uint64 (b : List Byte) : Except String Nat :=
  match b with
  | b0 :: b1 :: b2 :: b3 :: b4 :: b5 :: b6 :: b7 :: _ =>
    .ok (b7.val + b6.val * 2 ^ 8 + b5.val * 2 ^ 16 + b4.val * 2 ^ 24
      + b3.val * 2 ^ 32 + b2.val * 2 ^ 40 + b1.val * 2 ^ 48 + b0.val * 2 ^ 56)
  | _ => .error "index out of range"

end BigEndian

namespace LittleEndian

/-- The function `binary.LittleEndian.PutUint64(b, v)` as a function of the
buffer. -/
def PutUint64 (b : List Byte) (v : Nat) : Except String (List Byte) :=
  if b.length < 8 then .error "index out of range"
  else .ok (leBytes v ++ b.drop 8)

/-- The function `binary.LittleEndian.Uint64(b)`: panics when `b` has fewer
than eight bytes, otherwise reads the first eight, least significant
first. -/
def Uint64 (b : List Byte) : Except String Nat :=
  match b with
  | b0 :: b1 :: b2 :: b3 :: b4 :: b5 :: b6 :: b7 :: _ =>
    .ok (b0.val + b1.val * 2 ^ 8 + b2.val * 2 ^ 16 + b3.val * 2 ^ 24
      + b4.val * 2 ^ 32 + b5.val * 2 ^ 40 + b6.val * 2 ^ 48 + b7.val * 2 ^ 56)
  | _ => .error "index out of range"

end LittleEndian

/-- Byte-lexicographic "strictly less", the order of `bytes.Compare` and of
an ordered byte-keyed store: the first differing byte decides, and a proper
prefix is less than its extensions. -/
def lexLt : List Byte → List Byte → Bool
  | [], [] => false
  | [], _ :: _ => true
  | _ :: _, [] => false
  | x :: xs, y :: ys => if x < y then true else if y < x then false else lexLt xs ys

/-- Whether `p` is a byte prefix of `k`, as `bytes.HasPrefix(k, p)`. -/
def hasPrefix (k p : List Byte) : Bool := k.take p.length == p

/-! ## `stake/types/keys.go` -/

namespace Stake

def AddrLen : Nat := 20

def validatorKey : List Byte := [0x01]
def validatorByConsensusKey : List Byte := [0x02]
def validatorByInactiveKey : List Byte := [0x04]
def validatorByVotePowerKey : List Byte := [0x05]
def validatorVoteInfoKey : List Byte := [0x11]
def validatorVoteInfoInWindowKey : List Byte := [0x12]
def DelegationByDelValKey : List Byte := [0x31]
def DelegationByValDelKey : List Byte := [0x32]
def UnbondingHeightDelegatorValidatorKey : List Byte := [0x41]
def UnbondingDelegatorHeightValidatorKey : List Byte := [0x42]
def UnbondingValidatorHeightDelegatorKey : List Byte := [0x43]
def RedelegationHeightDelegatorFromValidatorKey : List Byte := [0x51]
def RedelegationDelegatorHeightFromValidatorKey : List Byte := [0x52]
def RedelegationFromValidatorHeightDelegatorKey : List Byte := [0x53]

def BuildValidatorByVotePower (votePower : Int) (valAddress : List Byte) :
    Except String (List Byte) := do
  let lenz := 1 + 8 + valAddress.length
  let bz := make lenz
  let votePowerBytes := make 8
  let votePowerBytes ← BigEndian.PutUint64 votePowerBytes (uint64 votePower)
  let bz ← copyInto bz 0 1 validatorByVotePowerKey
  let bz ← copyInto bz 1 9 votePowerBytes
  let bz ← copyInto bz 9 (valAddress.length + 9) valAddress
  pure bz

/-- The result is `(votePower, valAddress, err)`; on the two error returns
the first two components are `0` and the empty address. -/
def ParseValidatorVotePowerKey (key : List Byte) :
    Except String (Int × List Byte × Option String) :=
  if key.length < 10 then
    pure (0, [], some "incorrect key length")
  else do
    let k0 ← index key 0
    let t0 ← index validatorByVotePowerKey 0
    if k0 ≠ t0 then
      pure (0, [], some "incorrect key type, not validatorByVotePowerKey key")
    else do
      let powerBytes ← slice key 1 9
      let u ← BigEndian.Uint64 powerBytes
      let valAddress ← sliceFrom key 9
      pure (int64 u, valAddress, none)

/-- Unlike its siblings this parser has no length check of its own: it
fails only where a slice expression or the bounds check of
`binary.LittleEndian.Uint64` panics. -/
def GetValidatorVoteInfoInWindowIndexAddr (key : List Byte) :
    Except String (Int × List Byte) := do
  let addr ← slice key 1 (AddrLen + 1)
  let indexBytes ← sliceFrom key (AddrLen + 1)
  let u ← LittleEndian.Uint64 indexBytes
  let index := int64 u
  pure (index, addr)

def BuildValidatorVoteInfoInWindowKey (index : Int) (valAddress : List Byte) :
    Except String (List Byte) := do
  let b := make 8
  let b ← LittleEndian.PutUint64 b (uint64 index)
  let bz := validatorVoteInfoInWindowKey ++ valAddress
  let bz := bz ++ b
  pure bz

def BuildUnbondingHeightDelegatorValidatorKey (height : Int) (deleAddr valAddr : List Byte) :
    Except String (List Byte) := do
  let heightBytes := make 8
  let heightBytes ← BigEndian.PutUint64 heightBytes (uint64 height)
  let bz := UnbondingHeightDelegatorValidatorKey ++ heightBytes
  let bz := bz ++ deleAddr
  pure (bz ++ valAddr)

def BuildUnbondingDelegationByHeightPrefix (height : Int) : Except String (List Byte) := do
  let heightBytes := make 8
  let heightBytes ← BigEndian.PutUint64 heightBytes (uint64 height)
  pure (UnbondingHeightDelegatorValidatorKey ++ heightBytes)

/-- The result is `(height, deleAddr, valAddr)`. -/
def GetUnbondingDelegationHeightDelegatorValidator (key : List Byte) :
    Except String (Int × List Byte × List Byte) :=
  if key.length ≠ 1 + 8 + 2 * AddrLen then
    throw "invalid UnbondingHeightDelegatorKey length"
  else do
    let heightBytes ← slice key 1 9
    let u ← BigEndian.Uint64 heightBytes
    let height := int64 u
    let deleAddr ← slice key 9 (AddrLen + 9)
    let valAddr ← sliceFrom key (AddrLen + 9)
    pure (height, deleAddr, valAddr)

/-- The result is `(deleAddr, height, valAddr)`. -/
def GetUnbondingDelegationDelegatorHeightValidator (key : List Byte) :
    Except String (List Byte × Int × List Byte) :=
  if key.length ≠ 1 + 8 + 2 * AddrLen then
    throw "invalid UnbondingDelegatorHeightKey length"
  else do
    let deleAddr ← slice key 1 (AddrLen + 1)
    let heightBytes ← slice key (AddrLen + 1) (AddrLen + 9)
    let u ← BigEndian.Uint64 heightBytes
    let height := int64 u
    let valAddr ← sliceFrom key (AddrLen + 9)
    pure (deleAddr, height, valAddr)

def BuildUnbondingDelegatorHeightValidatorKey (delAddr : List Byte) (height : Int)
    (valAddr : List Byte) : Except String (List Byte) := do
  let heightBytes := make 8
  let heightBytes ← BigEndian.PutUint64 heightBytes (uint64 height)
  let bz := UnbondingDelegatorHeightValidatorKey ++ delAddr
  let bz := bz ++ heightBytes
  pure (bz ++ valAddr)

def BuildUnbondingByDelegatorPrefix (delAddr : List Byte) : List Byte :=
  UnbondingDelegatorHeightValidatorKey ++ delAddr

/-- The source appends to `UnbondingDelegatorHeightValidatorKey` (`0x42`)
here, not to `UnbondingValidatorHeightDelegatorKey` (`0x43`). -/
def BuildUnbondingValidatorHeightDelegatorKey (valAddr : List Byte) (height : Int)
    (delAddr : List Byte) : Except String (List Byte) := do
  let heightBytes := make 8
  let heightBytes ← BigEndian.PutUint64 heightBytes (uint64 height)
  let bz := UnbondingDelegatorHeightValidatorKey ++ valAddr
  let bz := bz ++ heightBytes
  pure (bz ++ delAddr)

def BuildUnbondingByValidatorPrefix (valAddr : List Byte) : List Byte :=
  UnbondingValidatorHeightDelegatorKey ++ valAddr

/-- The result is `(valAddr, height, deleAddr)`. -/
def GetUnbondingDelegationValidatorHeightDelegator (key : List Byte) :
    Except String (List Byte × Int × List Byte) :=
  if key.length ≠ 1 + 8 + 2 * AddrLen then
    throw "invalid UnbondingDelegatorHeightKey length"
  else do
    let valAddr ← slice key 1 (AddrLen + 1)
    let heightBytes ← slice key (AddrLen + 1) (AddrLen + 9)
    let u ← BigEndian.Uint64 heightBytes
    let height := int64 u
    let deleAddr ← sliceFrom key (AddrLen + 9)
    pure (valAddr, height, deleAddr)

def BuildRedelegationHeightDelegatorFromValidatorKey (height : Int) (delAdd valAddr : List Byte) :
    Except String (List Byte) := do
  let heightBytes := make 8
  let heightBytes ← BigEndian.PutUint64 heightBytes (uint64 height)
  let bz := RedelegationHeightDelegatorFromValidatorKey ++ heightBytes
  let bz := bz ++ delAdd
  pure (bz ++ valAddr)

def BuildRedelegationByHeightPrefix (height : Int) : Except String (List Byte) := do
  let heightBytes := make 8
  let heightBytes ← BigEndian.PutUint64 heightBytes (uint64 height)
  pure (RedelegationHeightDelegatorFromValidatorKey ++ heightBytes)

/-- The result is `(height, deleAddr, valAddr)`. -/
def GetRedelegationHeightDelegatorFromValidator (key : List Byte) :
    Except String (Int × List Byte × List Byte) :=
  if key.length ≠ 1 + 8 + 2 * AddrLen then
    throw "invalid RedelegationHeightDelegatorKey length"
  else do
    let heightBytes ← slice key 1 9
    let u ← BigEndian.Uint64 heightBytes
    let height := int64 u
    let deleAddr ← slice key 9 (AddrLen + 9)
    let valAddr ← sliceFrom key (AddrLen + 9)
    pure (height, deleAddr, valAddr)

/-- The result is `(deleAddr, height, valAddr)`. -/
def GetRedelegationDelegatorHeightFromValidator (key : List Byte) :
    Except String (List Byte × Int × List Byte) :=
  if key.length ≠ 1 + 8 + 2 * AddrLen then
    throw "invalid RedelegationDelegatorHeightKey length"
  else do
    let deleAddr ← slice key 1 (AddrLen + 1)
    let heightBytes ← slice key (AddrLen + 1) (AddrLen + 9)
    let u ← BigEndian.Uint64 heightBytes
    let height := int64 u
    let valAddr ← sliceFrom key (AddrLen + 9)
    pure (deleAddr, height, valAddr)

/-- The result is `(valAddr, height, deleAddr)`. -/
def GetRedelegationFromValidatorHeightDelegator (key : List Byte) :
    Except String (List Byte × Int × List Byte) :=
  if key.length ≠ 1 + 8 + 2 * AddrLen then
    throw "invalid RedelegationDelegatorHeightKey length"
  else do
    let valAddr ← slice key 1 (AddrLen + 1)
    let heightBytes ← slice key (AddrLen + 1) (AddrLen + 9)
    let u ← BigEndian.Uint64 heightBytes
    let height := int64 u
    let deleAddr ← sliceFrom key (AddrLen + 9)
    pure (valAddr, height, deleAddr)

def BuildRedelegationDelegatorHeightFromValidatorKey (delAddr : List Byte) (height : Int)
    (valAddr : List Byte) : Except String (List Byte) := do
  let heightBytes := make 8
  let heightBytes ← BigEndian.PutUint64 heightBytes (uint64 height)
  let bz := RedelegationDelegatorHeightFromValidatorKey ++ delAddr
  let bz := bz ++ heightBytes
  pure (bz ++ valAddr)

def BuildRedelegationByDelegatorPrefix (delAddr : List Byte) : List Byte :=
  RedelegationDelegatorHeightFromValidatorKey ++ delAddr

/-- The source appends to `RedelegationDelegatorHeightFromValidatorKey`
(`0x52`) here, not to `RedelegationFromValidatorHeightDelegatorKey`
(`0x53`). -/
def BuildRedelegationFromValidatorHeightDelegatorKey (valAddr : List Byte) (height : Int)
    (delAddr : List Byte) : Except String (List Byte) := do
  let heightBytes := make 8
  let heightBytes ← BigEndian.PutUint64 heightBytes (uint64 height)
  let bz := RedelegationDelegatorHeightFromValidatorKey ++ valAddr
  let bz := bz ++ heightBytes
  pure (bz ++ delAddr)

def BuildRedelegationByFromValidatorPrefix (valAddr : List Byte) : List Byte :=
  RedelegationFromValidatorHeightDelegatorKey ++ valAddr

end Stake

/-! ## `distribution/types/keys.go` -/

namespace Distribution

def AddrLen : Nat := 20

def delegatorEarningsStartInfoPrefixKey : List Byte := [0x12]
def validatorHistoryPeriodSummaryPrefixKey : List Byte := [0x13]
def delegatorPeriodIncomePrefixKey : List Byte := [0x31]

def BuildDelegatorEarningStartInfoKey (validatorAddr delegatorAddress : List Byte) : List Byte :=
  (delegatorEarningsStartInfoPrefixKey ++ validatorAddr) ++ delegatorAddress

/-- The result is `(valAddr, deleAddr)`. -/
def GetDelegatorEarningStartInfoAddr (key : List Byte) :
    Except String (List Byte × List Byte) :=
  if key.length ≠ 1 + 2 * AddrLen then
    throw "invalid delegatorEarningStartInfoKey length"
  else do
    let valAddr ← slice key 1 (1 + AddrLen)
    let deleAddr ← sliceFrom key (1 + AddrLen)
    pure (valAddr, deleAddr)

def BuildValidatorHistoryPeriodSummaryKey (validatorAddr : List Byte) (period : Int) :
    Except String (List Byte) := do
  let b := make 8
  let b ← LittleEndian.PutUint64 b (uint64 period)
  pure ((validatorHistoryPeriodSummaryPrefixKey ++ validatorAddr) ++ b)

/-- The result is `(valAddr, period)`. -/
def GetValidatorHistoryPeriodSummaryAddrPeriod (key : List Byte) :
    Except String (List Byte × Int) :=
  if key.length ≠ 1 + 8 + AddrLen then
    throw "invalid ValidatorHistoryPeriodSummaryKey length"
  else do
    let valAddr ← slice key 1 (1 + AddrLen)
    let b ← sliceFrom key (1 + AddrLen)
    let u ← LittleEndian.Uint64 b
    let period := int64 u
    pure (valAddr, period)

def BuildDelegatorPeriodIncomeKey (validatorAddr delegatorAddress : List Byte) (height : Int) :
    Except String (List Byte) := do
  let b := make 8
  let b ← LittleEndian.PutUint64 b (uint64 height)
  pure (((delegatorPeriodIncomePrefixKey ++ b) ++ validatorAddr) ++ delegatorAddress)

/-- The result is `(valAddr, deleAddr, height)`. -/
def GetDelegatorPeriodIncomeHeightAddr (key : List Byte) :
    Except String (List Byte × List Byte × Int) :=
  if key.length ≠ 1 + 8 + 2 * AddrLen then
    throw "invalid DelegatorsPeriodIncomeKey length"
  else do
    let b ← slice key 1 9
    let valAddr ← slice key 9 (9 + AddrLen)
    let deleAddr ← sliceFrom key (9 + AddrLen)
    let u ← LittleEndian.Uint64 b
    pure (valAddr, deleAddr, int64 u)

end Distribution

/-! ## `approve/types/approve.go`

The types `btypes.AccAddress`, `btypes.BigInt`, `types.QSC` and `types.QSCs`
with their methods, the constant `types.QOSCoinName` and the constructor
`ErrInvalidInput` are declared in packages of the repository outside the
files embedded here. -/

/-- Modelled from the spec: `btypes.BigInt`, whose declaration is missing, is
a "signed big integer (nilable, nil≡0)"; `none` is the nil value. -/
abbrev BigInt := Option Int

namespace BigInt

/-- Modelled from the spec: the integer a `BigInt` stands for, nil being
zero. -/
def value (i : BigInt) : Int := i.getD 0

/-- Modelled from the spec: `btypes.NewInt`, the `BigInt` of a number. -/
def NewInt (n : Int) : BigInt := some n

/-- Modelled from the spec: `BigInt.IsNil`, whether the amount is absent. -/
def IsNil (i : BigInt) : Bool := i.isNone

/-- Modelled from the spec: `BigInt.NilToZero`, absent read as zero. -/
def NilToZero (i : BigInt) : BigInt := some i.value

/-- Modelled from the spec: `BigInt.IsZero`. -/
def IsZero (i : BigInt) : Bool := decide (i.value = 0)

/-- Modelled from the spec: `BigInt.GT`, strictly greater. -/
def GT (i j : BigInt) : Bool := decide (j.value < i.value)

/-- Modelled from the spec: `BigInt.LT`, strictly less. -/
def LT (i j : BigInt) : Bool := decide (i.value < j.value)

end BigInt

/-- Modelled from the spec: `types.QSC`, whose declaration is missing, is a
"(name, signed big integer)" pair. -/
structure QSC where
  Name : String
  Amount : BigInt
deriving DecidableEq

/-- Modelled from the spec: `types.QSCs`, the sequence of the secondary
assets of a record. -/
abbrev QSCs := List QSC

namespace QSCs

/-- Modelled from the spec: `QSCs.IsPositive`, missing from the sources, is
"the other-assets' own positivity rule": every amount is strictly positive,
and there is at least one (the record `{qos:0, assets:{}}` is not
positive). -/
def IsPositive (coins : QSCs) : Bool :=
  !coins.isEmpty && coins.all (fun coin => coin.Amount.GT (BigInt.NewInt 0))

/-- Modelled from the spec: `QSCs.IsNotNegative`, missing from the sources:
"every other-asset amount ≥ 0 (absence ≡ 0)". -/
def IsNotNegative (coins : QSCs) : Bool :=
  coins.all (fun coin => !coin.Amount.LT (BigInt.NewInt 0))

end QSCs

/-- Modelled from the spec: `AccAddress.Equals`, missing from the sources;
"equality is byte-exact". -/
def AccAddress.Equals (a b : List Byte) : Bool := decide (a = b)

/-- Modelled from the spec: the error of `validate() -> ok |
InvalidInput(reason)`; its constructor `ErrInvalidInput` is declared in a
file missing from the sources. -/
inductive Error where
  | InvalidInput (reason : String)
deriving DecidableEq

/-- Modelled from the spec: `ErrInvalidInput(msg)` builds the `InvalidInput`
error with the reason `msg`. -/
def ErrInvalidInput (msg : String) : Error := Error.InvalidInput msg

/-- What `Approve.Valid` takes from outside the repository's sources: Go's
`strings.ToUpper` and `strings.TrimSpace`, and the constant
`types.QOSCoinName`, the name of the native base asset. -/
structure Env where
  ToUpper : String → String
  TrimSpace : String → String
  QOSCoinName : String

/-- The white space of ASCII as Go's `strings.TrimSpace` knows it: tab, line
feed, vertical tab, form feed, carriage return and space. -/
def isAsciiSpace (c : Char) : Bool := decide (c.toNat ∈ [9, 10, 11, 12, 13, 32])

/-- An environment for evaluation: upper-casing of the letters `a` to `z`,
trimming of the six white space characters of ASCII, and the base asset
`QOS`. Go's functions agree with these on strings of ASCII characters; on
other strings they also map letters outside ASCII and trim the white space
outside ASCII. -/
def asciiEnv : Env where
  ToUpper := fun s => String.mk (s.data.map Char.toUpper)
  TrimSpace := fun s =>
    String.mk ((s.data.dropWhile isAsciiSpace).reverse.dropWhile isAsciiSpace).reverse
  QOSCoinName := "QOS"

structure Approve where
  From : List Byte
  To : List Byte
  QOS : BigInt
  QSCs : QSCs
deriving DecidableEq

namespace Approve

def IsNotNegative (approve : Approve) : Bool :=
  let qos := approve.QOS.NilToZero
  if qos.LT (BigInt.NewInt 0) then false
  else approve.QSCs.IsNotNegative

def IsPositive (approve : Approve) : Bool :=
  if approve.QOS.IsNil || approve.QOS.IsZero then approve.QSCs.IsPositive
  else if approve.QOS.GT (BigInt.NewInt 0) then approve.IsNotNegative
  else false

/-- The loop of `Valid` over `approve.QSCs`; `m` holds the keys of the map
`m` of the source, whose values are all `true`. -/
def validNames (env : Env) : List QSC → List String → Option Error
  | [], _ => none
  | val :: rest, m =>
    let name := env.ToUpper (env.TrimSpace val.Name)
    if env.ToUpper name = env.QOSCoinName then
      some (ErrInvalidInput "QSCs can not contain qos, not case sensitive")
    else if name ∉ m then validNames env rest (name :: m)
    else some (ErrInvalidInput ("repeat qsc:" ++ name))

/-- The result is the returned `error`, `none` being `nil`. -/
def Valid (env : Env) (approve : Approve) : Option Error :=
  if approve.From.length = 0 then
    some (ErrInvalidInput "from address is empty")
  else if approve.To.length = 0 then
    some (ErrInvalidInput "to address is empty")
  else if AccAddress.Equals approve.From approve.To then
    some (ErrInvalidInput "addresses of from and to are the same")
  else if !approve.IsPositive then
    some (ErrInvalidInput "coins must be positive")
  else validNames env approve.QSCs []

end Approve

/-! ### Arithmetic, comparison and the canonical string

`BigInt.Neg`, `BigInt.Add`, `BigInt.Equal`, `BigInt.String`, the methods
`Negative`, `Plus`, `Minus`, `IsGTE`, `IsLT`, `IsEqual` of `types.QSCs` and
`AccAddress.String` are declared outside the files embedded here. -/

/-- A Go `string`. -/
abbrev GoString := String

namespace BigInt

/-- Modelled from the spec: `BigInt.Neg`, whose declaration is missing. In
the spec an absent amount is "treated as zero before any arithmetic": the
zero is put in its place by `NilToZero`, ahead of the arithmetic, and the
arithmetic is that of present amounts. The method supplies no zero of its
own: on the absent amount it fails, as a Go method that reads through a nil
value does. -/
def Neg (i : BigInt) : Except String BigInt :=
  match i with
  | some n => .ok (some (-n))
  | none => .error "nil pointer dereference"

/-- Modelled from the spec: `BigInt.Add`, whose declaration is missing: the
sum of two present amounts. As for `Neg`, an absent operand is not read as
zero here; the call fails on it. -/
def Add (i j : BigInt) : Except String BigInt :=
  match i, j with
  | some a, some b => .ok (some (a + b))
  | _, _ => .error "nil pointer dereference"

/-- Modelled from the spec: `BigInt.Equal`, equality of the amounts. -/
def Equal (i j : BigInt) : Bool := decide (i.value = j.value)

end BigInt

namespace QSCs

/-- Modelled from the spec: the amount of the asset `name` in `coins`,
"absence ≡ 0". -/
def amountOf (coins : QSCs) (name : GoString) : Int :=
  match coins.find? (fun coin => coin.Name = name) with
  | some coin => coin.Amount.value
  | none => 0

/-- Modelled from the spec: `QSCs.IsGTE`, missing from the sources, the
"secondary-asset comparison" of `isGreaterOrEqual`: of no asset does
`coinsB` hold more than `coins` (absence ≡ 0). -/
def IsGTE (coins coinsB : QSCs) : Bool :=
  (coins ++ coinsB).all
    (fun coin => decide (coinsB.amountOf coin.Name ≤ coins.amountOf coin.Name))

/-- Modelled from the spec: `QSCs.IsLT`, missing from the sources: "strictly
less" in the "total order" the spec speaks of, that is not greater than or
equal. -/
def IsLT (coins coinsB : QSCs) : Bool := !coins.IsGTE coinsB

/-- Modelled from the spec: `QSCs.IsEqual`, missing from the sources:
"exactly equal". -/
def IsEqual (coins coinsB : QSCs) : Bool := decide (coins = coinsB)

end QSCs

/-- What `Approve.String` takes from outside the sources given here: the
methods `AccAddress.String` and `BigInt.String`. -/
structure Fmt where
  AccAddressString : List Byte → GoString
  BigIntString : BigInt → GoString

/-- A formatter for evaluation: an address as the characters of its bytes,
an amount in decimal and the absent amount as `<nil>`. -/
def plainFmt : Fmt where
  AccAddressString := fun a => String.mk (a.map (fun b => Char.ofNat b.val))
  BigIntString := fun i =>
    match i with
    | some n => toString n
    | none => "<nil>"

/-- The order `<=` of Go strings: lexicographic in the characters (the
order of the UTF-8 bytes is the order of the code points). -/
def strLE (a b : GoString) : Prop := a.data ≤ b.data

instance : DecidableRel strLE := fun a b => inferInstanceAs (Decidable (a.data ≤ b.data))

/-- Go's `sort.Strings(names)`: the ascending rearrangement of `names`. The
order is total and antisymmetric, so every sorting algorithm returns the
same list; insertion sort computes it here. -/
def sortStrings (names : List GoString) : List GoString := names.insertionSort strLE

def NewApprove (from_ to_ : List Byte) (qos : BigInt) (qscs : QSCs) : Approve :=
  { From := from_, To := to_, QOS := qos.NilToZero, QSCs := qscs }

namespace Approve

/-- The parameter `qscsNegative` is the method `QSCs.Negative`, missing from
the sources. `Neg` is called on `approve.QOS` as it is. -/
def Negative (qscsNegative : Litewallet.QSCs → Litewallet.QSCs) (approve : Approve) :
    Except String Approve := do
  let qos ← approve.QOS.Neg
  pure (NewApprove approve.From approve.To qos (qscsNegative approve.QSCs))

/-- The parameter `qscsPlus` is the method `QSCs.Plus`, missing from the
sources. `NilToZero` is applied to the argument `qos`; `Add` is called on
`approve.QOS` as it is. -/
def Plus (qscsPlus : Litewallet.QSCs → Litewallet.QSCs → Litewallet.QSCs) (approve : Approve)
    (qos : BigInt) (qscs : Litewallet.QSCs) : Except String Approve := do
  let sum ← approve.QOS.Add qos.NilToZero
  pure (NewApprove approve.From approve.To sum (qscsPlus approve.QSCs qscs))

/-- The parameter `qscsMinus` is the method `QSCs.Minus`, missing from the
sources. Both `approve.QOS` and `qos` pass through `NilToZero` first. -/
def Minus (qscsMinus : Litewallet.QSCs → Litewallet.QSCs → Litewallet.QSCs) (approve : Approve)
    (qos : BigInt) (qscs : Litewallet.QSCs) : Except String Approve := do
  let approveQOS := approve.QOS.NilToZero
  let qos := qos.NilToZero
  let neg ← qos.Neg
  let diff ← approveQOS.Add neg
  pure (NewApprove approve.From approve.To diff (qscsMinus approve.QSCs qscs))

def IsGTE (approve : Approve) (qos : BigInt) (qscs : Litewallet.QSCs) : Bool :=
  let approveQOS := approve.QOS.NilToZero
  let qos := qos.NilToZero
  if approveQOS.LT qos then false
  else approve.QSCs.IsGTE qscs

def IsGT (approve : Approve) (qos : BigInt) (qscs : Litewallet.QSCs) : Bool :=
  let approveQOS := approve.QOS.NilToZero
  let qos := qos.NilToZero
  if approveQOS.LT qos then false
  else if approveQOS.Equal qos then !approve.QSCs.IsLT qscs && !approve.QSCs.IsEqual qscs
  else qscs.IsNotNegative

end Approve

/-- The slice `names` and the map `m1` that `String` fills in its loop over
`approve.QSCs`: the names in the order of the assets, and for each name the
amount of the last asset of that name. A name that is no key of the map
yields the zero value of `BigInt`, the absent amount. -/
def Approve.namesAndAmounts (qscs : Litewallet.QSCs) : List GoString × (GoString → BigInt) :=
  qscs.foldl (fun acc val => (acc.1 ++ [val.Name], Function.update acc.2 val.Name val.Amount))
    ([], fun _ => none)

def Approve.String (fmt : Fmt) (approve : Approve) : GoString :=
  let approveQOS := approve.QOS.NilToZero
  let buf := ""
  let buf := buf ++ ("from:" ++ fmt.AccAddressString approve.From ++ " ")
  let buf := buf ++ ("to:" ++ fmt.AccAddressString approve.To ++ " ")
  let buf := buf ++ ("qos:" ++ fmt.BigIntString approveQOS ++ " ")
  let (names, m1) := Approve.namesAndAmounts approve.QSCs
  let names := sortStrings names
  names.foldl (fun buf name => (buf ++ (name ++ ":")) ++ (fmt.BigIntString (m1 name) ++ " ")) buf

def Approve.Equals (fmt : Fmt) (approve approveB : Approve) : Bool :=
  decide (Approve.String fmt approve = Approve.String fmt approveB)

/-! ### More of `stake/types/keys.go` -/

def Stake.BuildInactiveValidatorKey (sec : Int) (valAddress : List Byte) :
    Except String (List Byte) := do
  let lenz := 1 + 8 + valAddress.length
  let bz := make lenz
  let secBytes := make 8
  let secBytes ← BigEndian.PutUint64 secBytes (uint64 sec)
  let bz ← copyInto bz 0 1 Stake.validatorByInactiveKey
  let bz ← copyInto bz 1 9 secBytes
  let bz ← copyInto bz 9 (valAddress.length + 9) valAddress
  pure bz

/-! ### The order of Go strings is a linear order -/

instance : IsTotal GoString strLE := ⟨fun a b => le_total a.data b.data⟩

instance : IsTrans GoString strLE := ⟨fun _ _ _ h1 h2 => le_trans (α := List Char) h1 h2⟩

instance : IsAntisymm GoString strLE :=
  ⟨fun _ _ h1 h2 => String.ext (le_antisymm (α := List Char) h1 h2)⟩

/-! ## Slices with their backing storage

The embedding above treats a slice as its contents. For the question which
slices share storage, the functions that build keys are embedded a second
time, in the namespace `Mem`, over a store of backing arrays: a function
takes the store and returns the store together with the slice it returns in
Go. Address arguments are passed by their contents, the functions only read
them. -/

namespace Mem

/-- A Go slice value: the address of its backing array, its length and its
capacity. Every slice met here begins at the first element of its array. -/
structure Slice where
  ptr : Nat
  len : Nat
  cap : Nat
deriving DecidableEq

/-- The store: the backing arrays, by address. -/
abbrev Store := List (List Byte)

/-- The bytes of the slice `s`. -/
def read (st : Store) (s : Slice) : List Byte := (st.getD s.ptr []).take s.len

/-- Overwrites the backing array of `s` with `xs` from offset `off` on. -/
def write (st : Store) (s : Slice) (off : Nat) (xs : List Byte) : Store :=
  st.set s.ptr
    ((st.getD s.ptr []).take off ++ xs ++ (st.getD s.ptr []).drop (off + xs.length))

/-- A new backing array of capacity `cap` (at least the length of `content`)
that begins with `content`, and the slice of `content` on it. -/
def alloc (st : Store) (content : List Byte) (cap : Nat) : Store × Slice :=
  (st ++ [content ++ List.replicate (cap - content.length) 0],
    { ptr := st.length, len := content.length, cap := max cap content.length })

/-- Go's `make([]byte, n)`. -/
def goMake (st : Store) (n : Nat) : Store × Slice := alloc st (List.replicate n 0) n

/-- Go's `append(s, xs...)`: when the capacity of `s` suffices the bytes are
written behind `s` into its backing array; otherwise a new array is
allocated. The capacity `grow n` of a new array for `n` bytes is left to the
implementation. -/
def goAppend (grow : Nat → Nat) (st : Store) (s : Slice) (xs : List Byte) : Store × Slice :=
  if s.len + xs.length ≤ s.cap then
    (write st s s.len xs, { s with len := s.len + xs.length })
  else alloc st (read st s ++ xs) (grow (s.len + xs.length))

/-- The statement `copy(dst[lo:hi], src)`; the slice expression panics
unless `lo ≤ hi ≤ cap(dst)`. -/
def goCopy (st : Store) (dst : Slice) (lo hi : Nat) (src : List Byte) : Except String Store :=
  if lo ≤ hi ∧ hi ≤ dst.cap then .ok (write st dst lo (src.take (min (hi - lo) src.length)))
  else .error "slice bounds out of range"

/-- The functions `binary.BigEndian.PutUint64(b, v)` and
`binary.LittleEndian.PutUint64(b, v)`, `enc` being `beBytes` or `leBytes`. -/
def putUint64 (enc : Nat → List Byte) (st : Store) (b : Slice) (v : Nat) : Except String Store :=
  if b.len < 8 then .error "index out of range"
  else .ok (write st b 0 (enc v))

/-- The assignment `s[i] = b`. -/
def setIndex (st : Store) (s : Slice) (i : Nat) (b : Byte) : Except String Store :=
  if i < s.len then .ok (write st s i [b])
  else .error "index out of range"

/-- The result `r` of a call made in the store `st0` is fresh: the returned
slice lies on an array allocated by the call, and no array of `st0` has
changed. -/
def Fresh (st0 : Store) (r : Store × Slice) : Prop :=
  st0.length ≤ r.2.ptr ∧ r.1.take st0.length = st0

instance (st0 : Store) (r : Store × Slice) : Decidable (Fresh st0 r) :=
  inferInstanceAs (Decidable (_ ∧ _))

/-- `Fresh` for a call that might panic. -/
def FreshOk (st0 : Store) (r : Except String (Store × Slice)) : Prop :=
  ∃ x, r = .ok x ∧ Fresh st0 x

/-- The store when the program starts: the backing arrays of the
package-level variables of `stake/types/keys.go` (addresses 0 to 14) and of
`distribution/types/keys.go` (addresses 15 to 22). -/
def initStore : Store :=
  [[0x01], [0x02], [0x04], [0x05], [0x11], [0x12], [0x31], [0x32], [0x41], [0x42], [0x43],
   [0x51], [0x52], [0x53], "currentValidatorsAddressKey".data.map (fun c => byte c.toNat),
   [0x01], [0x02], [0x04], [0x12], [0x13], [0x14], [0x15], [0x31]]

namespace Stake

def validatorKey : Slice := ⟨0, 1, 1⟩
def validatorByConsensusKey : Slice := ⟨1, 1, 1⟩
def validatorByInactiveKey : Slice := ⟨2, 1, 1⟩
def validatorByVotePowerKey : Slice := ⟨3, 1, 1⟩
def validatorVoteInfoKey : Slice := ⟨4, 1, 1⟩
def validatorVoteInfoInWindowKey : Slice := ⟨5, 1, 1⟩
def DelegationByDelValKey : Slice := ⟨6, 1, 1⟩
def DelegationByValDelKey : Slice := ⟨7, 1, 1⟩
def UnbondingHeightDelegatorValidatorKey : Slice := ⟨8, 1, 1⟩
def UnbondingDelegatorHeightValidatorKey : Slice := ⟨9, 1, 1⟩
def UnbondingValidatorHeightDelegatorKey : Slice := ⟨10, 1, 1⟩
def RedelegationHeightDelegatorFromValidatorKey : Slice := ⟨11, 1, 1⟩
def RedelegationDelegatorHeightFromValidatorKey : Slice := ⟨12, 1, 1⟩
def RedelegationFromValidatorHeightDelegatorKey : Slice := ⟨13, 1, 1⟩
/-- The slice `[]byte("currentValidatorsAddressKey")`; the capacity that a
conversion from a string gives is left to the implementation, no function
appends to this slice. -/
def currentValidatorsAddressKey : Slice := ⟨14, 27, 27⟩

def BuildCurrentValidatorsAddressKey (st : Store) : Store × Slice := (st, currentValidatorsAddressKey)

def BuildValidatorPrefixKey (st : Store) : Store × Slice := (st, validatorKey)

def GetValidatorByInactiveKey (st : Store) : Store × Slice := (st, validatorByInactiveKey)

def GetValidatorByVotePowerKey (st : Store) : Store × Slice := (st, validatorByVotePowerKey)

def GetValidatorVoteInfoInWindowKey (st : Store) : Store × Slice := (st, validatorVoteInfoInWindowKey)

def GetValidatorVoteInfoKey (st : Store) : Store × Slice := (st, validatorVoteInfoKey)

def BuildValidatorKey (grow : Nat → Nat) (st : Store) (valAddress : List Byte) : Store × Slice :=
  goAppend grow st validatorKey valAddress

def BuildDelegationByDelValKey (grow : Nat → Nat) (st : Store) (delAdd : List Byte) (valAdd : List Byte) : Store × Slice :=
  let bz := goAppend grow st DelegationByDelValKey delAdd
  goAppend grow bz.1 bz.2 valAdd

def BuildDelegationByValDelKey (grow : Nat → Nat) (st : Store) (valAdd : List Byte) (delAdd : List Byte) : Store × Slice :=
  let bz := goAppend grow st DelegationByValDelKey valAdd
  goAppend grow bz.1 bz.2 delAdd

def BuildDelegationByValidatorPrefix (grow : Nat → Nat) (st : Store) (valAdd : List Byte) : Store × Slice :=
  goAppend grow st DelegationByValDelKey valAdd

def BuildValidatorVoteInfoKey (grow : Nat → Nat) (st : Store) (valAddress : List Byte) : Store × Slice :=
  goAppend grow st validatorVoteInfoKey valAddress

def BuildValidatorVoteInfoInWindowPrefixKey (grow : Nat → Nat) (st : Store) (valAddress : List Byte) : Store × Slice :=
  goAppend grow st validatorVoteInfoInWindowKey valAddress

def BuildValidatorVoteInfoInWindowKey (grow : Nat → Nat) (st : Store) (index : Int) (valAddress : List Byte) :
    Except String (Store × Slice) := do
  let b := goMake st 8
  let st ← putUint64 leBytes b.1 b.2 (uint64 index)
  let bz := goAppend grow st validatorVoteInfoInWindowKey valAddress
  pure (goAppend grow bz.1 bz.2 (read st b.2))

def BuildUnbondingHeightDelegatorValidatorKey (grow : Nat → Nat) (st : Store) (height : Int) (deleAddr : List Byte) (valAddr : List Byte) :
    Except String (Store × Slice) := do
  let heightBytes := goMake st 8
  let st ← putUint64 beBytes heightBytes.1 heightBytes.2 (uint64 height)
  let bz := goAppend grow st UnbondingHeightDelegatorValidatorKey (read st heightBytes.2)
  let bz := goAppend grow bz.1 bz.2 deleAddr
  pure (goAppend grow bz.1 bz.2 valAddr)

def BuildUnbondingDelegationByHeightPrefix (grow : Nat → Nat) (st : Store) (height : Int) :
    Except String (Store × Slice) := do
  let heightBytes := goMake st 8
  let st ← putUint64 beBytes heightBytes.1 heightBytes.2 (uint64 height)
  pure (goAppend grow st UnbondingHeightDelegatorValidatorKey (read st heightBytes.2))

def BuildUnbondingDelegatorHeightValidatorKey (grow : Nat → Nat) (st : Store) (delAddr : List Byte) (height : Int) (valAddr : List Byte) :
    Except String (Store × Slice) := do
  let heightBytes := goMake st 8
  let st ← putUint64 beBytes heightBytes.1 heightBytes.2 (uint64 height)
  let bz := goAppend grow st UnbondingDelegatorHeightValidatorKey delAddr
  let bz := goAppend grow bz.1 bz.2 (read st heightBytes.2)
  pure (goAppend grow bz.1 bz.2 valAddr)

def BuildUnbondingByDelegatorPrefix (grow : Nat → Nat) (st : Store) (delAddr : List Byte) : Store × Slice :=
  goAppend grow st UnbondingDelegatorHeightValidatorKey delAddr

def BuildUnbondingValidatorHeightDelegatorKey (grow : Nat → Nat) (st : Store) (valAddr : List Byte) (height : Int) (delAddr : List Byte) :
    Except String (Store × Slice) := do
  let heightBytes := goMake st 8
  let st ← putUint64 beBytes heightBytes.1 heightBytes.2 (uint64 height)
  let bz := goAppend grow st UnbondingDelegatorHeightValidatorKey valAddr
  let bz := goAppend grow bz.1 bz.2 (read st heightBytes.2)
  pure (goAppend grow bz.1 bz.2 delAddr)

def BuildUnbondingByValidatorPrefix (grow : Nat → Nat) (st : Store) (valAddr : List Byte) : Store × Slice :=
  goAppend grow st UnbondingValidatorHeightDelegatorKey valAddr

def BuildRedelegationHeightDelegatorFromValidatorKey (grow : Nat → Nat) (st : Store) (height : Int) (delAdd : List Byte) (valAddr : List Byte) :
    Except String (Store × Slice) := do
  let heightBytes := goMake st 8
  let st ← putUint64 beBytes heightBytes.1 heightBytes.2 (uint64 height)
  let bz := goAppend grow st RedelegationHeightDelegatorFromValidatorKey (read st heightBytes.2)
  let bz := goAppend grow bz.1 bz.2 delAdd
  pure (goAppend grow bz.1 bz.2 valAddr)

def BuildRedelegationByHeightPrefix (grow : Nat → Nat) (st : Store) (height : Int) :
    Except String (Store × Slice) := do
  let heightBytes := goMake st 8
  let st ← putUint64 beBytes heightBytes.1 heightBytes.2 (uint64 height)
  pure (goAppend grow st RedelegationHeightDelegatorFromValidatorKey (read st heightBytes.2))

def BuildRedelegationDelegatorHeightFromValidatorKey (grow : Nat → Nat) (st : Store) (delAddr : List Byte) (height : Int) (valAddr : List Byte) :
    Except String (Store × Slice) := do
  let heightBytes := goMake st 8
  let st ← putUint64 beBytes heightBytes.1 heightBytes.2 (uint64 height)
  let bz := goAppend grow st RedelegationDelegatorHeightFromValidatorKey delAddr
  let bz := goAppend grow bz.1 bz.2 (read st heightBytes.2)
  pure (goAppend grow bz.1 bz.2 valAddr)

def BuildRedelegationByDelegatorPrefix (grow : Nat → Nat) (st : Store) (delAddr : List Byte) : Store × Slice :=
  goAppend grow st RedelegationDelegatorHeightFromValidatorKey delAddr

def BuildRedelegationFromValidatorHeightDelegatorKey (grow : Nat → Nat) (st : Store) (valAddr : List Byte) (height : Int) (delAddr : List Byte) :
    Except String (Store × Slice) := do
  let heightBytes := goMake st 8
  let st ← putUint64 beBytes heightBytes.1 heightBytes.2 (uint64 height)
  let bz := goAppend grow st RedelegationDelegatorHeightFromValidatorKey valAddr
  let bz := goAppend grow bz.1 bz.2 (read st heightBytes.2)
  pure (goAppend grow bz.1 bz.2 delAddr)

def BuildRedelegationByFromValidatorPrefix (grow : Nat → Nat) (st : Store) (valAddr : List Byte) : Store × Slice :=
  goAppend grow st RedelegationFromValidatorHeightDelegatorKey valAddr

def BuildValidatorByConsensusKey (st : Store) (consensusAddress : List Byte) :
    Except String (Store × Slice) := do
  let lenz := 1 + consensusAddress.length
  let bz := goMake st lenz
  let st ← goCopy bz.1 bz.2 0 1 (read bz.1 validatorByConsensusKey)
  let st ← goCopy st bz.2 1 (consensusAddress.length + 1) consensusAddress
  pure (st, bz.2)

def BuildInactiveValidatorKey (st : Store) (sec : Int) (valAddress : List Byte) :
    Except String (Store × Slice) := do
  let lenz := 1 + 8 + valAddress.length
  let bz := goMake st lenz
  let secBytes := goMake bz.1 8
  let st ← putUint64 beBytes secBytes.1 secBytes.2 (uint64 sec)
  let st ← goCopy st bz.2 0 1 (read st validatorByInactiveKey)
  let st ← goCopy st bz.2 1 9 (read st secBytes.2)
  let st ← goCopy st bz.2 9 (valAddress.length + 9) valAddress
  pure (st, bz.2)

/-- The argument `unix` stands for `inactiveTime.UTC().Unix()`. -/
def BuildInactiveValidatorKeyByTime (st : Store) (unix : Int) (valAddress : List Byte) :
    Except String (Store × Slice) :=
  BuildInactiveValidatorKey st unix valAddress

def BuildValidatorByVotePower (st : Store) (votePower : Int) (valAddress : List Byte) :
    Except String (Store × Slice) := do
  let lenz := 1 + 8 + valAddress.length
  let bz := goMake st lenz
  let votePowerBytes := goMake bz.1 8
  let st ← putUint64 beBytes votePowerBytes.1 votePowerBytes.2 (uint64 votePower)
  let st ← goCopy st bz.2 0 1 (read st validatorByVotePowerKey)
  let st ← goCopy st bz.2 1 9 (read st votePowerBytes.2)
  let st ← goCopy st bz.2 9 (valAddress.length + 9) valAddress
  pure (st, bz.2)

end Stake

namespace Distribution

def communityFeePoolKey : Slice := ⟨15, 1, 1⟩
def lastBlockProposerKey : Slice := ⟨16, 1, 1⟩
def blockDistributionKey : Slice := ⟨17, 1, 1⟩
def delegatorEarningsStartInfoPrefixKey : Slice := ⟨18, 1, 1⟩
def validatorHistoryPeriodSummaryPrefixKey : Slice := ⟨19, 1, 1⟩
def validatorCurrentPeriodSummaryPrefixKey : Slice := ⟨20, 1, 1⟩
def validatorEcoFeePoolPrefixKey : Slice := ⟨21, 1, 1⟩
def delegatorPeriodIncomePrefixKey : Slice := ⟨22, 1, 1⟩

def BuildCommunityFeePoolKey (st : Store) : Store × Slice := (st, communityFeePoolKey)

def BuildLastProposerKey (st : Store) : Store × Slice := (st, lastBlockProposerKey)

def BuildBlockDistributionKey (st : Store) : Store × Slice := (st, blockDistributionKey)

def GetValidatorCurrentPeriodSummaryPrefixKey (st : Store) : Store × Slice := (st, validatorCurrentPeriodSummaryPrefixKey)

def GetValidatorHistoryPeriodSummaryPrefixKey (st : Store) : Store × Slice := (st, validatorHistoryPeriodSummaryPrefixKey)

def GetDelegatorEarningsStartInfoPrefixKey (st : Store) : Store × Slice := (st, delegatorEarningsStartInfoPrefixKey)

def GetDelegatorPeriodIncomePrefixKey (st : Store) : Store × Slice := (st, delegatorPeriodIncomePrefixKey)

def GetValidatorEcoFeePoolPrefixKey (st : Store) : Store × Slice := (st, validatorEcoFeePoolPrefixKey)

def BuildDelegatorEarningStartInfoKey (grow : Nat → Nat) (st : Store) (validatorAddr : List Byte) (delegatorAddress : List Byte) : Store × Slice :=
  let bz := goAppend grow st delegatorEarningsStartInfoPrefixKey validatorAddr
  goAppend grow bz.1 bz.2 delegatorAddress

def BuildValidatorHistoryPeriodSummaryPrefixKey (grow : Nat → Nat) (st : Store) (validatorAddr : List Byte) : Store × Slice :=
  goAppend grow st validatorHistoryPeriodSummaryPrefixKey validatorAddr

def BuildValidatorHistoryPeriodSummaryKey (grow : Nat → Nat) (st : Store) (validatorAddr : List Byte) (period : Int) :
    Except String (Store × Slice) := do
  let b := goMake st 8
  let st ← putUint64 leBytes b.1 b.2 (uint64 period)
  let bz := goAppend grow st validatorHistoryPeriodSummaryPrefixKey validatorAddr
  pure (goAppend grow bz.1 bz.2 (read st b.2))

def BuildValidatorCurrentPeriodSummaryKey (grow : Nat → Nat) (st : Store) (validatorAddr : List Byte) : Store × Slice :=
  goAppend grow st validatorCurrentPeriodSummaryPrefixKey validatorAddr

def BuildDelegatorPeriodIncomeKey (grow : Nat → Nat) (st : Store) (validatorAddr : List Byte) (delegatorAddress : List Byte) (height : Int) :
    Except String (Store × Slice) := do
  let b := goMake st 8
  let st ← putUint64 leBytes b.1 b.2 (uint64 height)
  let bz := goAppend grow st delegatorPeriodIncomePrefixKey (read st b.2)
  let bz := goAppend grow bz.1 bz.2 validatorAddr
  pure (goAppend grow bz.1 bz.2 delegatorAddress)

def BuildDelegatorPeriodIncomePrefixKey (grow : Nat → Nat) (st : Store) (height : Int) :
    Except String (Store × Slice) := do
  let b := goMake st 8
  let st ← putUint64 leBytes b.1 b.2 (uint64 height)
  pure (goAppend grow st delegatorPeriodIncomePrefixKey (read st b.2))

def BuildValidatorEcoFeePoolKey (grow : Nat → Nat) (st : Store) (validatorAddr : List Byte) : Store × Slice :=
  goAppend grow st validatorEcoFeePoolPrefixKey validatorAddr

end Distribution

end Mem

end Litewallet

/-! ## Lemmas on the primitives -/

namespace Litewallet

theorem uint64_lt (x : Int) : uint64 x < 2 ^ 64 := by
  unfold uint64
  omega

theorem int64_uint64 (x : Int) (h : isInt64 x) : int64 (uint64 x) = x := by
  unfold isInt64 at h
  unfold int64 uint64
  split <;> omega

theorem isInt64_int64 (u : Nat) : isInt64 (int64 u) := by
  unfold isInt64 int64
  split <;> omega

theorem uint64_of_nonneg (x : Int) (h0 : 0 ≤ x) (h : isInt64 x) : (uint64 x : Int) = x := by
  unfold isInt64 at h
  unfold uint64
  omega

theorem uint64_of_neg (x : Int) (h0 : x < 0) (h : isInt64 x) :
    (uint64 x : Int) = x + 2 ^ 64 := by
  unfold isInt64 at h
  unfold uint64
  omega

@[simp] theorem beBytes_length (v : Nat) : (beBytes v).length = 8 := rfl

@[simp] theorem leBytes_length (v : Nat) : (leBytes v).length = 8 := rfl

theorem BigEndian.PutUint64_make_beBytes (v : Nat) :
    BigEndian.PutUint64 (make 8) v = .ok (beBytes v) := by
  simp [BigEndian.PutUint64, make]

theorem LittleEndian.PutUint64_make_leBytes (v : Nat) :
    LittleEndian.PutUint64 (make 8) v = .ok (leBytes v) := by
  simp [LittleEndian.PutUint64, make]

theorem BigEndian.Uint64_beBytes (v : Nat) (hv : v < 2 ^ 64) (rest : List Byte) :
    BigEndian.Uint64 (beBytes v ++ rest) = .ok v := by
  simp only [beBytes, byte, List.cons_append, List.nil_append, BigEndian.Uint64, Except.ok.injEq]
  omega

theorem LittleEndian.Uint64_leBytes (v : Nat) (hv : v < 2 ^ 64) (rest : List Byte) :
    LittleEndian.Uint64 (leBytes v ++ rest) = .ok v := by
  simp only [leBytes, byte, List.cons_append, List.nil_append, LittleEndian.Uint64,
    Except.ok.injEq]
  omega

theorem slice_append (pre mid post : List Byte) (lo hi : Nat) (hlo : lo = pre.length)
    (hhi : hi = pre.length + mid.length) :
    slice (pre ++ (mid ++ post)) lo hi = .ok mid := by
  subst hlo hhi
  simp [slice]

theorem sliceFrom_append (pre post : List Byte) (lo : Nat) (hlo : lo = pre.length) :
    sliceFrom (pre ++ post) lo = .ok post := by
  subst hlo
  simp [sliceFrom, slice]

end Litewallet

namespace Litewallet

theorem copyInto_make_prefix (n : Nat) (t : Byte) :
    copyInto (make (1 + 8 + n)) 0 1 [t] = .ok (t :: make (8 + n)) := by
  have h : 1 + 8 + n = (8 + n) + 1 := by omega
  simp [copyInto, make, h, List.replicate_succ]

theorem copyInto_power (n : Nat) (t : Byte) (v : Nat) :
    copyInto (t :: make (8 + n)) 1 9 (beBytes v) = .ok (t :: (beBytes v ++ make n)) := by
  have h : 8 + n = n + 8 := by omega
  simp [copyInto, make, h, List.replicate_succ, beBytes]

theorem copyInto_addr (t : Byte) (v : Nat) (a : List Byte) :
    copyInto (t :: (beBytes v ++ make a.length)) 9 (a.length + 9) a
      = .ok (t :: (beBytes v ++ a)) := by
  unfold copyInto
  rw [if_pos (by simp [make]; omega)]
  have h : a.length + 1 + 1 + 1 + 1 + 1 + 1 + 1 + 1 + 1 = 9 + a.length := by omega
  simp [make, beBytes, h]

theorem Stake.BuildValidatorByVotePower_eq (votePower : Int) (valAddress : List Byte) :
    Stake.BuildValidatorByVotePower votePower valAddress
      = .ok (Stake.validatorByVotePowerKey ++ (beBytes (uint64 votePower) ++ valAddress)) := by
  unfold Stake.BuildValidatorByVotePower
  simp only [BigEndian.PutUint64_make_beBytes, Stake.validatorByVotePowerKey, bind, Except.bind,
    copyInto_make_prefix, copyInto_power, copyInto_addr, pure, Except.pure, List.singleton_append]

theorem Stake.ParseValidatorVotePowerKey_build (u : Nat) (hu : u < 2 ^ 64) (a : List Byte)
    (ha : 1 ≤ a.length) :
    Stake.ParseValidatorVotePowerKey (Stake.validatorByVotePowerKey ++ (beBytes u ++ a))
      = .ok (int64 u, a, none) := by
  unfold Stake.ParseValidatorVotePowerKey
  have hlen : ¬ (Stake.validatorByVotePowerKey ++ (beBytes u ++ a)).length < 10 := by
    simp [Stake.validatorByVotePowerKey]; omega
  rw [if_neg hlen]
  have h1 : slice (Stake.validatorByVotePowerKey ++ (beBytes u ++ a)) 1 9 = .ok (beBytes u) :=
    slice_append _ _ _ _ _ rfl rfl
  have h2 : sliceFrom (Stake.validatorByVotePowerKey ++ (beBytes u ++ a)) 9 = .ok a := by
    rw [← List.append_assoc]
    exact sliceFrom_append _ _ _ rfl
  have h3 : BigEndian.Uint64 (beBytes u) = .ok u := by
    simpa using BigEndian.Uint64_beBytes u hu []
  have h0 : index (Stake.validatorByVotePowerKey ++ (beBytes u ++ a)) 0 = .ok 5 := rfl
  have h0' : index Stake.validatorByVotePowerKey 0 = .ok 5 := rfl
  simp only [h0, h0', h1, h2, h3, bind, Except.bind, pure, Except.pure, ne_eq,
    not_true_eq_false, if_false]

end Litewallet

namespace Litewallet

theorem lexLt_cons_self (x : Byte) (xs ys : List Byte) :
    lexLt (x :: xs) (x :: ys) = lexLt xs ys := by
  simp [lexLt]

theorem lexLt_append_left (p xs ys : List Byte) :
    lexLt (p ++ xs) (p ++ ys) = lexLt xs ys := by
  induction p with
  | nil => rfl
  | cons x p ih => simpa [lexLt_cons_self] using ih

theorem lexLt_irrefl (xs : List Byte) : lexLt xs xs = false := by
  induction xs with
  | nil => rfl
  | cons x xs ih => simpa [lexLt_cons_self] using ih

theorem lexLt_cons_of_lt (a b : Byte) (xs ys : List Byte) (h : a < b) :
    lexLt (a :: xs) (b :: ys) = true := by
  simp [lexLt, h]

theorem lexLt_cons_of_gt (a b : Byte) (xs ys : List Byte) (h : b < a) :
    lexLt (a :: xs) (b :: ys) = false := by
  have h2 : ¬ a < b := not_lt_of_lt h
  simp [lexLt, h, h2]

theorem byte_lt_iff (a b : Nat) : byte a < byte b ↔ a % 256 < b % 256 := by
  simp [byte]

theorem byte_eq_iff (a b : Nat) : byte a = byte b ↔ a % 256 = b % 256 := by
  simp [byte]

/-- The big-endian bytes of a number below `2 ^ 64` are its eight base-256
digits. -/
theorem beBytes_digits (u : Nat) (hu : u < 2 ^ 64) :
    ∃ a7 a6 a5 a4 a3 a2 a1 a0 : Nat,
      (a7 < 256 ∧ a6 < 256 ∧ a5 < 256 ∧ a4 < 256 ∧ a3 < 256 ∧ a2 < 256 ∧ a1 < 256 ∧ a0 < 256) ∧
      u = a0 + a1 * 2 ^ 8 + a2 * 2 ^ 16 + a3 * 2 ^ 24 + a4 * 2 ^ 32 + a5 * 2 ^ 40
        + a6 * 2 ^ 48 + a7 * 2 ^ 56 ∧
      beBytes u = [byte a7, byte a6, byte a5, byte a4, byte a3, byte a2, byte a1, byte a0] := by
  refine ⟨u / 2 ^ 56 % 256, u / 2 ^ 48 % 256, u / 2 ^ 40 % 256, u / 2 ^ 32 % 256,
    u / 2 ^ 24 % 256, u / 2 ^ 16 % 256, u / 2 ^ 8 % 256, u % 256, ?_, ?_, ?_⟩
  · omega
  · omega
  · simp [beBytes, byte]

/-- Big-endian encoding turns the order of unsigned 64-bit numbers into the
byte-lexicographic order: the numbers decide, and equal numbers leave the
decision to what follows. -/
theorem lexLt_beBytes (u v : Nat) (hu : u < 2 ^ 64) (hv : v < 2 ^ 64) (x y : List Byte) :
    lexLt (beBytes u ++ x) (beBytes v ++ y)
      = if u < v then true else if v < u then false else lexLt x y := by
  obtain ⟨a7, a6, a5, a4, a3, a2, a1, a0, ha, hua, hbe⟩ := beBytes_digits u hu
  obtain ⟨b7, b6, b5, b4, b3, b2, b1, b0, hb, hvb, hbe2⟩ := beBytes_digits v hv
  rw [hbe, hbe2]
  clear hbe hbe2 hu hv
  simp only [List.cons_append, List.nil_append]
  rcases Nat.lt_trichotomy a7 b7 with h7 | h7 | h7
  · have hlt : u < v := by omega
    rw [if_pos hlt]
    exact lexLt_cons_of_lt _ _ _ _ ((byte_lt_iff _ _).2 (by omega))
  swap
  · have hlt : ¬ u < v := by omega
    have hgt : v < u := by omega
    rw [if_neg hlt, if_pos hgt]
    exact lexLt_cons_of_gt _ _ _ _ ((byte_lt_iff _ _).2 (by omega))
  subst h7
  rw [lexLt_cons_self]
  rcases Nat.lt_trichotomy a6 b6 with h6 | h6 | h6
  · have hlt : u < v := by omega
    rw [if_pos hlt]
    exact lexLt_cons_of_lt _ _ _ _ ((byte_lt_iff _ _).2 (by omega))
  swap
  · have hlt : ¬ u < v := by omega
    have hgt : v < u := by omega
    rw [if_neg hlt, if_pos hgt]
    exact lexLt_cons_of_gt _ _ _ _ ((byte_lt_iff _ _).2 (by omega))
  subst h6
  rw [lexLt_cons_self]
  rcases Nat.lt_trichotomy a5 b5 with h5 | h5 | h5
  · have hlt : u < v := by omega
    rw [if_pos hlt]
    exact lexLt_cons_of_lt _ _ _ _ ((byte_lt_iff _ _).2 (by omega))
  swap
  · have hlt : ¬ u < v := by omega
    have hgt : v < u := by omega
    rw [if_neg hlt, if_pos hgt]
    exact lexLt_cons_of_gt _ _ _ _ ((byte_lt_iff _ _).2 (by omega))
  subst h5
  rw [lexLt_cons_self]
  rcases Nat.lt_trichotomy a4 b4 with h4 | h4 | h4
  · have hlt : u < v := by omega
    rw [if_pos hlt]
    exact lexLt_cons_of_lt _ _ _ _ ((byte_lt_iff _ _).2 (by omega))
  swap
  · have hlt : ¬ u < v := by omega
    have hgt : v < u := by omega
    rw [if_neg hlt, if_pos hgt]
    exact lexLt_cons_of_gt _ _ _ _ ((byte_lt_iff _ _).2 (by omega))
  subst h4
  rw [lexLt_cons_self]
  rcases Nat.lt_trichotomy a3 b3 with h3 | h3 | h3
  · have hlt : u < v := by omega
    rw [if_pos hlt]
    exact lexLt_cons_of_lt _ _ _ _ ((byte_lt_iff _ _).2 (by omega))
  swap
  · have hlt : ¬ u < v := by omega
    have hgt : v < u := by omega
    rw [if_neg hlt, if_pos hgt]
    exact lexLt_cons_of_gt _ _ _ _ ((byte_lt_iff _ _).2 (by omega))
  subst h3
  rw [lexLt_cons_self]
  rcases Nat.lt_trichotomy a2 b2 with h2 | h2 | h2
  · have hlt : u < v := by omega
    rw [if_pos hlt]
    exact lexLt_cons_of_lt _ _ _ _ ((byte_lt_iff _ _).2 (by omega))
  swap
  · have hlt : ¬ u < v := by omega
    have hgt : v < u := by omega
    rw [if_neg hlt, if_pos hgt]
    exact lexLt_cons_of_gt _ _ _ _ ((byte_lt_iff _ _).2 (by omega))
  subst h2
  rw [lexLt_cons_self]
  rcases Nat.lt_trichotomy a1 b1 with h1 | h1 | h1
  · have hlt : u < v := by omega
    rw [if_pos hlt]
    exact lexLt_cons_of_lt _ _ _ _ ((byte_lt_iff _ _).2 (by omega))
  swap
  · have hlt : ¬ u < v := by omega
    have hgt : v < u := by omega
    rw [if_neg hlt, if_pos hgt]
    exact lexLt_cons_of_gt _ _ _ _ ((byte_lt_iff _ _).2 (by omega))
  subst h1
  rw [lexLt_cons_self]
  rcases Nat.lt_trichotomy a0 b0 with h0 | h0 | h0
  · have hlt : u < v := by omega
    rw [if_pos hlt]
    exact lexLt_cons_of_lt _ _ _ _ ((byte_lt_iff _ _).2 (by omega))
  swap
  · have hlt : ¬ u < v := by omega
    have hgt : v < u := by omega
    rw [if_neg hlt, if_pos hgt]
    exact lexLt_cons_of_gt _ _ _ _ ((byte_lt_iff _ _).2 (by omega))
  subst h0
  rw [lexLt_cons_self]
  have hne1 : ¬ u < v := by omega
  have hne2 : ¬ v < u := by omega
  rw [if_neg hne1, if_neg hne2]

/-- The function `lexLt` decides the lexicographic order of lists. -/
theorem lexLt_iff_lex (xs ys : List Byte) :
    lexLt xs ys = true ↔ List.Lex (fun a b : Byte => a < b) xs ys := by
  induction xs generalizing ys with
  | nil =>
    cases ys with
    | nil =>
      simp only [lexLt, Bool.false_eq_true, false_iff]
      intro h
      cases h
    | cons y ys => simpa [lexLt] using List.Lex.nil
  | cons x xs ih =>
    cases ys with
    | nil =>
      simp only [lexLt, Bool.false_eq_true, false_iff]
      intro h
      cases h
    | cons y ys =>
      unfold lexLt
      by_cases h1 : x < y
      · simpa [h1] using List.Lex.rel h1
      · by_cases h2 : y < x
        · simp only [h1, h2, if_false, if_true, Bool.false_eq_true, false_iff]
          intro h
          cases h with
          | cons h => exact h1 h2
          | rel h => exact h1 h
        · have hxy : x = y := le_antisymm (not_lt.1 h2) (not_lt.1 h1)
          subst hxy
          simp only [h1, if_false, ih]
          constructor
          · intro h
            exact List.Lex.cons h
          · intro h
            cases h with
            | cons h => exact h
            | rel h => exact absurd h h1

theorem BigEndian.Uint64_beBytes_self (u : Nat) (hu : u < 2 ^ 64) :
    BigEndian.Uint64 (beBytes u) = .ok u := by
  simpa using BigEndian.Uint64_beBytes u hu []

theorem LittleEndian.Uint64_leBytes_self (u : Nat) (hu : u < 2 ^ 64) :
    LittleEndian.Uint64 (leBytes u) = .ok u := by
  simpa using LittleEndian.Uint64_leBytes u hu []

end Litewallet


/-! ## The queue keys of `stake/types/keys.go` -/

namespace Litewallet

theorem Stake.BuildUnbondingHeightDelegatorValidatorKey_eq (height : Int) (a b : List Byte) :
    Stake.BuildUnbondingHeightDelegatorValidatorKey height a b
      = .ok (Stake.UnbondingHeightDelegatorValidatorKey ++ (beBytes (uint64 height) ++ (a ++ b))) := by
  simp [Stake.BuildUnbondingHeightDelegatorValidatorKey, BigEndian.PutUint64_make_beBytes, bind, Except.bind, pure, Except.pure]

theorem Stake.BuildRedelegationHeightDelegatorFromValidatorKey_eq (height : Int) (a b : List Byte) :
    Stake.BuildRedelegationHeightDelegatorFromValidatorKey height a b
      = .ok (Stake.RedelegationHeightDelegatorFromValidatorKey ++ (beBytes (uint64 height) ++ (a ++ b))) := by
  simp [Stake.BuildRedelegationHeightDelegatorFromValidatorKey, BigEndian.PutUint64_make_beBytes, bind, Except.bind, pure, Except.pure]

theorem Stake.BuildUnbondingDelegatorHeightValidatorKey_eq (a : List Byte) (height : Int) (b : List Byte) :
    Stake.BuildUnbondingDelegatorHeightValidatorKey a height b
      = .ok (Stake.UnbondingDelegatorHeightValidatorKey ++ (a ++ (beBytes (uint64 height) ++ b))) := by
  simp [Stake.BuildUnbondingDelegatorHeightValidatorKey, BigEndian.PutUint64_make_beBytes, bind, Except.bind, pure, Except.pure]

theorem Stake.BuildUnbondingValidatorHeightDelegatorKey_eq (a : List Byte) (height : Int) (b : List Byte) :
    Stake.BuildUnbondingValidatorHeightDelegatorKey a height b
      = .ok (Stake.UnbondingDelegatorHeightValidatorKey ++ (a ++ (beBytes (uint64 height) ++ b))) := by
  simp [Stake.BuildUnbondingValidatorHeightDelegatorKey, BigEndian.PutUint64_make_beBytes, bind, Except.bind, pure, Except.pure]

theorem Stake.BuildRedelegationDelegatorHeightFromValidatorKey_eq (a : List Byte) (height : Int) (b : List Byte) :
    Stake.BuildRedelegationDelegatorHeightFromValidatorKey a height b
      = .ok (Stake.RedelegationDelegatorHeightFromValidatorKey ++ (a ++ (beBytes (uint64 height) ++ b))) := by
  simp [Stake.BuildRedelegationDelegatorHeightFromValidatorKey, BigEndian.PutUint64_make_beBytes, bind, Except.bind, pure, Except.pure]

theorem Stake.BuildRedelegationFromValidatorHeightDelegatorKey_eq (a : List Byte) (height : Int) (b : List Byte) :
    Stake.BuildRedelegationFromValidatorHeightDelegatorKey a height b
      = .ok (Stake.RedelegationDelegatorHeightFromValidatorKey ++ (a ++ (beBytes (uint64 height) ++ b))) := by
  simp [Stake.BuildRedelegationFromValidatorHeightDelegatorKey, BigEndian.PutUint64_make_beBytes, bind, Except.bind, pure, Except.pure]

theorem Stake.GetUnbondingDelegationHeightDelegatorValidator_eq (t : List Byte) (u : Nat) (a b : List Byte)
    (ht : t.length = 1) (hu : u < 2 ^ 64) (ha : a.length = Stake.AddrLen)
    (hb : b.length = Stake.AddrLen) :
    Stake.GetUnbondingDelegationHeightDelegatorValidator (t ++ (beBytes u ++ (a ++ b))) = .ok (int64 u, a, b) := by
  unfold Stake.GetUnbondingDelegationHeightDelegatorValidator
  rw [if_neg (by simp [ht, ha, hb, Stake.AddrLen])]
  have h1 : slice (t ++ (beBytes u ++ (a ++ b))) 1 9 = .ok (beBytes u) :=
    slice_append _ _ _ _ _ ht.symm (by simp [ht])
  have h2 : slice (t ++ (beBytes u ++ (a ++ b))) 9 (Stake.AddrLen + 9) = .ok a := by
    have h := slice_append (t ++ beBytes u) a b 9 (Stake.AddrLen + 9) (by simp [ht])
      (by simp [ht, ha]; omega)
    simpa [List.append_assoc] using h
  have h3 : sliceFrom (t ++ (beBytes u ++ (a ++ b))) (Stake.AddrLen + 9) = .ok b := by
    have h := sliceFrom_append (t ++ beBytes u ++ a) b (Stake.AddrLen + 9)
      (by simp [ht, ha]; omega)
    simpa [List.append_assoc] using h
  simp only [h1, h2, h3, BigEndian.Uint64_beBytes_self u hu, bind, Except.bind, pure,
    Except.pure]

theorem Stake.GetRedelegationHeightDelegatorFromValidator_eq (t : List Byte) (u : Nat) (a b : List Byte)
    (ht : t.length = 1) (hu : u < 2 ^ 64) (ha : a.length = Stake.AddrLen)
    (hb : b.length = Stake.AddrLen) :
    Stake.GetRedelegationHeightDelegatorFromValidator (t ++ (beBytes u ++ (a ++ b))) = .ok (int64 u, a, b) := by
  unfold Stake.GetRedelegationHeightDelegatorFromValidator
  rw [if_neg (by simp [ht, ha, hb, Stake.AddrLen])]
  have h1 : slice (t ++ (beBytes u ++ (a ++ b))) 1 9 = .ok (beBytes u) :=
    slice_append _ _ _ _ _ ht.symm (by simp [ht])
  have h2 : slice (t ++ (beBytes u ++ (a ++ b))) 9 (Stake.AddrLen + 9) = .ok a := by
    have h := slice_append (t ++ beBytes u) a b 9 (Stake.AddrLen + 9) (by simp [ht])
      (by simp [ht, ha]; omega)
    simpa [List.append_assoc] using h
  have h3 : sliceFrom (t ++ (beBytes u ++ (a ++ b))) (Stake.AddrLen + 9) = .ok b := by
    have h := sliceFrom_append (t ++ beBytes u ++ a) b (Stake.AddrLen + 9)
      (by simp [ht, ha]; omega)
    simpa [List.append_assoc] using h
  simp only [h1, h2, h3, BigEndian.Uint64_beBytes_self u hu, bind, Except.bind, pure,
    Except.pure]

theorem Stake.GetUnbondingDelegationDelegatorHeightValidator_eq (t : List Byte) (u : Nat) (a b : List Byte)
    (ht : t.length = 1) (hu : u < 2 ^ 64) (ha : a.length = Stake.AddrLen)
    (hb : b.length = Stake.AddrLen) :
    Stake.GetUnbondingDelegationDelegatorHeightValidator (t ++ (a ++ (beBytes u ++ b))) = .ok (a, int64 u, b) := by
  unfold Stake.GetUnbondingDelegationDelegatorHeightValidator
  rw [if_neg (by simp [ht, ha, hb, Stake.AddrLen])]
  have h1 : slice (t ++ (a ++ (beBytes u ++ b))) 1 (Stake.AddrLen + 1) = .ok a :=
    slice_append _ _ _ _ _ ht.symm (by simp [ht, ha]; omega)
  have h2 : slice (t ++ (a ++ (beBytes u ++ b))) (Stake.AddrLen + 1) (Stake.AddrLen + 9)
      = .ok (beBytes u) := by
    have h := slice_append (t ++ a) (beBytes u) b (Stake.AddrLen + 1) (Stake.AddrLen + 9)
      (by simp [ht, ha]; omega) (by simp [ht, ha]; omega)
    simpa [List.append_assoc] using h
  have h3 : sliceFrom (t ++ (a ++ (beBytes u ++ b))) (Stake.AddrLen + 9) = .ok b := by
    have h := sliceFrom_append (t ++ a ++ beBytes u) b (Stake.AddrLen + 9)
      (by simp [ht, ha]; omega)
    simpa [List.append_assoc] using h
  simp only [h1, h2, h3, BigEndian.Uint64_beBytes_self u hu, bind, Except.bind, pure,
    Except.pure]

theorem Stake.GetUnbondingDelegationValidatorHeightDelegator_eq (t : List Byte) (u : Nat) (a b : List Byte)
    (ht : t.length = 1) (hu : u < 2 ^ 64) (ha : a.length = Stake.AddrLen)
    (hb : b.length = Stake.AddrLen) :
    Stake.GetUnbondingDelegationValidatorHeightDelegator (t ++ (a ++ (beBytes u ++ b))) = .ok (a, int64 u, b) := by
  unfold Stake.GetUnbondingDelegationValidatorHeightDelegator
  rw [if_neg (by simp [ht, ha, hb, Stake.AddrLen])]
  have h1 : slice (t ++ (a ++ (beBytes u ++ b))) 1 (Stake.AddrLen + 1) = .ok a :=
    slice_append _ _ _ _ _ ht.symm (by simp [ht, ha]; omega)
  have h2 : slice (t ++ (a ++ (beBytes u ++ b))) (Stake.AddrLen + 1) (Stake.AddrLen + 9)
      = .ok (beBytes u) := by
    have h := slice_append (t ++ a) (beBytes u) b (Stake.AddrLen + 1) (Stake.AddrLen + 9)
      (by simp [ht, ha]; omega) (by simp [ht, ha]; omega)
    simpa [List.append_assoc] using h
  have h3 : sliceFrom (t ++ (a ++ (beBytes u ++ b))) (Stake.AddrLen + 9) = .ok b := by
    have h := sliceFrom_append (t ++ a ++ beBytes u) b (Stake.AddrLen + 9)
      (by simp [ht, ha]; omega)
    simpa [List.append_assoc] using h
  simp only [h1, h2, h3, BigEndian.Uint64_beBytes_self u hu, bind, Except.bind, pure,
    Except.pure]

theorem Stake.GetRedelegationDelegatorHeightFromValidator_eq (t : List Byte) (u : Nat) (a b : List Byte)
    (ht : t.length = 1) (hu : u < 2 ^ 64) (ha : a.length = Stake.AddrLen)
    (hb : b.length = Stake.AddrLen) :
    Stake.GetRedelegationDelegatorHeightFromValidator (t ++ (a ++ (beBytes u ++ b))) = .ok (a, int64 u, b) := by
  unfold Stake.GetRedelegationDelegatorHeightFromValidator
  rw [if_neg (by simp [ht, ha, hb, Stake.AddrLen])]
  have h1 : slice (t ++ (a ++ (beBytes u ++ b))) 1 (Stake.AddrLen + 1) = .ok a :=
    slice_append _ _ _ _ _ ht.symm (by simp [ht, ha]; omega)
  have h2 : slice (t ++ (a ++ (beBytes u ++ b))) (Stake.AddrLen + 1) (Stake.AddrLen + 9)
      = .ok (beBytes u) := by
    have h := slice_append (t ++ a) (beBytes u) b (Stake.AddrLen + 1) (Stake.AddrLen + 9)
      (by simp [ht, ha]; omega) (by simp [ht, ha]; omega)
    simpa [List.append_assoc] using h
  have h3 : sliceFrom (t ++ (a ++ (beBytes u ++ b))) (Stake.AddrLen + 9) = .ok b := by
    have h := sliceFrom_append (t ++ a ++ beBytes u) b (Stake.AddrLen + 9)
      (by simp [ht, ha]; omega)
    simpa [List.append_assoc] using h
  simp only [h1, h2, h3, BigEndian.Uint64_beBytes_self u hu, bind, Except.bind, pure,
    Except.pure]

theorem Stake.GetRedelegationFromValidatorHeightDelegator_eq (t : List Byte) (u : Nat) (a b : List Byte)
    (ht : t.length = 1) (hu : u < 2 ^ 64) (ha : a.length = Stake.AddrLen)
    (hb : b.length = Stake.AddrLen) :
    Stake.GetRedelegationFromValidatorHeightDelegator (t ++ (a ++ (beBytes u ++ b))) = .ok (a, int64 u, b) := by
  unfold Stake.GetRedelegationFromValidatorHeightDelegator
  rw [if_neg (by simp [ht, ha, hb, Stake.AddrLen])]
  have h1 : slice (t ++ (a ++ (beBytes u ++ b))) 1 (Stake.AddrLen + 1) = .ok a :=
    slice_append _ _ _ _ _ ht.symm (by simp [ht, ha]; omega)
  have h2 : slice (t ++ (a ++ (beBytes u ++ b))) (Stake.AddrLen + 1) (Stake.AddrLen + 9)
      = .ok (beBytes u) := by
    have h := slice_append (t ++ a) (beBytes u) b (Stake.AddrLen + 1) (Stake.AddrLen + 9)
      (by simp [ht, ha]; omega) (by simp [ht, ha]; omega)
    simpa [List.append_assoc] using h
  have h3 : sliceFrom (t ++ (a ++ (beBytes u ++ b))) (Stake.AddrLen + 9) = .ok b := by
    have h := sliceFrom_append (t ++ a ++ beBytes u) b (Stake.AddrLen + 9)
      (by simp [ht, ha]; omega)
    simpa [List.append_assoc] using h
  simp only [h1, h2, h3, BigEndian.Uint64_beBytes_self u hu, bind, Except.bind, pure,
    Except.pure]

/-! ## The keys of `distribution/types/keys.go` -/

theorem Distribution.GetDelegatorEarningStartInfoAddr_build (a b : List Byte)
    (ha : a.length = Distribution.AddrLen) (hb : b.length = Distribution.AddrLen) :
    Distribution.GetDelegatorEarningStartInfoAddr (Distribution.BuildDelegatorEarningStartInfoKey a b)
      = .ok (a, b) := by
  unfold Distribution.GetDelegatorEarningStartInfoAddr Distribution.BuildDelegatorEarningStartInfoKey
  rw [if_neg (by simp [ha, hb, Distribution.AddrLen, Distribution.delegatorEarningsStartInfoPrefixKey])]
  have h1 : slice (Distribution.delegatorEarningsStartInfoPrefixKey ++ a ++ b) 1
      (1 + Distribution.AddrLen) = .ok a := by
    have h := slice_append Distribution.delegatorEarningsStartInfoPrefixKey a b 1
      (1 + Distribution.AddrLen) rfl (by simp [ha, Distribution.delegatorEarningsStartInfoPrefixKey])
    simpa [List.append_assoc] using h
  have h2 : sliceFrom (Distribution.delegatorEarningsStartInfoPrefixKey ++ a ++ b)
      (1 + Distribution.AddrLen) = .ok b :=
    sliceFrom_append _ _ _ (by simp [ha, Distribution.delegatorEarningsStartInfoPrefixKey]; omega)
  simp only [h1, h2, bind, Except.bind, pure, Except.pure]

theorem Distribution.BuildValidatorHistoryPeriodSummaryKey_eq (a : List Byte) (period : Int) :
    Distribution.BuildValidatorHistoryPeriodSummaryKey a period
      = .ok (Distribution.validatorHistoryPeriodSummaryPrefixKey ++ (a ++ leBytes (uint64 period))) := by
  simp [Distribution.BuildValidatorHistoryPeriodSummaryKey, LittleEndian.PutUint64_make_leBytes, bind,
    Except.bind, pure, Except.pure]

theorem Distribution.GetValidatorHistoryPeriodSummaryAddrPeriod_eq (t : List Byte) (u : Nat)
    (a : List Byte) (ht : t.length = 1) (hu : u < 2 ^ 64) (ha : a.length = Distribution.AddrLen) :
    Distribution.GetValidatorHistoryPeriodSummaryAddrPeriod (t ++ (a ++ leBytes u))
      = .ok (a, int64 u) := by
  unfold Distribution.GetValidatorHistoryPeriodSummaryAddrPeriod
  rw [if_neg (by simp [ht, ha, Distribution.AddrLen])]
  have h1 : slice (t ++ (a ++ leBytes u)) 1 (1 + Distribution.AddrLen) = .ok a :=
    slice_append _ _ _ _ _ ht.symm (by simp [ht, ha])
  have h2 : sliceFrom (t ++ (a ++ leBytes u)) (1 + Distribution.AddrLen) = .ok (leBytes u) := by
    have h := sliceFrom_append (t ++ a) (leBytes u) (1 + Distribution.AddrLen) (by simp [ht, ha])
    simpa [List.append_assoc] using h
  simp only [h1, h2, LittleEndian.Uint64_leBytes_self u hu, bind, Except.bind, pure,
    Except.pure]

theorem Distribution.BuildDelegatorPeriodIncomeKey_eq (a b : List Byte) (height : Int) :
    Distribution.BuildDelegatorPeriodIncomeKey a b height
      = .ok (Distribution.delegatorPeriodIncomePrefixKey ++ (leBytes (uint64 height) ++ (a ++ b))) := by
  simp [Distribution.BuildDelegatorPeriodIncomeKey, LittleEndian.PutUint64_make_leBytes, bind,
    Except.bind, pure, Except.pure]

theorem Distribution.GetDelegatorPeriodIncomeHeightAddr_eq (t : List Byte) (u : Nat)
    (a b : List Byte) (ht : t.length = 1) (hu : u < 2 ^ 64)
    (ha : a.length = Distribution.AddrLen) (hb : b.length = Distribution.AddrLen) :
    Distribution.GetDelegatorPeriodIncomeHeightAddr (t ++ (leBytes u ++ (a ++ b)))
      = .ok (a, b, int64 u) := by
  unfold Distribution.GetDelegatorPeriodIncomeHeightAddr
  rw [if_neg (by simp [ht, ha, hb, Distribution.AddrLen])]
  have h1 : slice (t ++ (leBytes u ++ (a ++ b))) 1 9 = .ok (leBytes u) :=
    slice_append _ _ _ _ _ ht.symm (by simp [ht])
  have h2 : slice (t ++ (leBytes u ++ (a ++ b))) 9 (9 + Distribution.AddrLen) = .ok a := by
    have h := slice_append (t ++ leBytes u) a b 9 (9 + Distribution.AddrLen) (by simp [ht])
      (by simp [ht, ha])
    simpa [List.append_assoc] using h
  have h3 : sliceFrom (t ++ (leBytes u ++ (a ++ b))) (9 + Distribution.AddrLen) = .ok b := by
    have h := sliceFrom_append (t ++ leBytes u ++ a) b (9 + Distribution.AddrLen)
      (by simp [ht, ha]; omega)
    simpa [List.append_assoc] using h
  simp only [h1, h2, h3, LittleEndian.Uint64_leBytes_self u hu, bind, Except.bind, pure,
    Except.pure]

end Litewallet

/-! ## Lemmas on the parsers and on `Approve.Valid` -/

namespace Litewallet

theorem BigEndian.Uint64_ok_of_length (b : List Byte) (h : 8 ≤ b.length) :
    ∃ u, BigEndian.Uint64 b = .ok u := by
  match b, h with
  | b0 :: b1 :: b2 :: b3 :: b4 :: b5 :: b6 :: b7 :: _, _ => exact ⟨_, rfl⟩

theorem LittleEndian.Uint64_ok_of_long (b : List Byte) (h : 8 ≤ b.length) :
    ∃ u, LittleEndian.Uint64 b = .ok u := by
  match b, h with
  | b0 :: b1 :: b2 :: b3 :: b4 :: b5 :: b6 :: b7 :: _, _ => exact ⟨_, rfl⟩

theorem LittleEndian.Uint64_error (b : List Byte) (h : b.length < 8) :
    LittleEndian.Uint64 b = .error "index out of range" := by
  match b, h with
  | [], _ => rfl
  | [_], _ => rfl
  | [_, _], _ => rfl
  | [_, _, _], _ => rfl
  | [_, _, _, _], _ => rfl
  | [_, _, _, _, _], _ => rfl
  | [_, _, _, _, _, _], _ => rfl
  | [_, _, _, _, _, _, _], _ => rfl
  | _ :: _ :: _ :: _ :: _ :: _ :: _ :: _ :: _, h =>
    simp only [List.length_cons] at h
    omega

theorem slice_ok (s : List Byte) (lo hi : Nat) (h1 : lo ≤ hi) (h2 : hi ≤ s.length) :
    slice s lo hi = .ok ((s.drop lo).take (hi - lo)) := by
  simp [slice, h1, h2]

theorem slice_error (s : List Byte) (lo hi : Nat) (h : ¬ (lo ≤ hi ∧ hi ≤ s.length)) :
    slice s lo hi = .error "slice bounds out of range" := by
  simp only [slice, if_neg h]

theorem Stake.GetValidatorVoteInfoInWindowIndexAddr_isOk (key : List Byte) :
    (∃ r, Stake.GetValidatorVoteInfoInWindowIndexAddr key = .ok r) ↔ 29 ≤ key.length := by
  unfold Stake.GetValidatorVoteInfoInWindowIndexAddr sliceFrom
  by_cases h21 : 21 ≤ key.length
  · have h1 := slice_ok key 1 (Stake.AddrLen + 1) (by simp [Stake.AddrLen]) (by simpa [Stake.AddrLen] using h21)
    have h2 := slice_ok key (Stake.AddrLen + 1) key.length (by simpa [Stake.AddrLen] using h21) (le_refl _)
    by_cases h29 : 29 ≤ key.length
    · obtain ⟨u, hu⟩ := LittleEndian.Uint64_ok_of_long
        (List.take (key.length - (Stake.AddrLen + 1)) (List.drop (Stake.AddrLen + 1) key))
        (by simp [Stake.AddrLen]; omega)
      simp only [h1, h2, hu, bind, Except.bind, pure, Except.pure, h29, iff_true]
      exact ⟨_, rfl⟩
    · have hu := LittleEndian.Uint64_error
        (List.take (key.length - (Stake.AddrLen + 1)) (List.drop (Stake.AddrLen + 1) key))
        (by simp [Stake.AddrLen]; omega)
      simp only [h1, h2, hu, bind, Except.bind, pure, Except.pure, h29, iff_false]
      rintro ⟨r, hr⟩
      cases hr
  · have h1 := slice_error key 1 (Stake.AddrLen + 1) (by simp [Stake.AddrLen]; omega)
    simp only [h1, bind, Except.bind]
    constructor
    · rintro ⟨r, hr⟩
      cases hr
    · intro h
      omega

theorem Approve.validNames_eq_none_iff (env : Env) (qs : List QSC) (m : List GoString) :
    Approve.validNames env qs m = none ↔
      (∀ q ∈ qs, env.ToUpper (env.ToUpper (env.TrimSpace q.Name)) ≠ env.QOSCoinName) ∧
      (∀ q ∈ qs, env.ToUpper (env.TrimSpace q.Name) ∉ m) ∧
      (qs.map (fun q => env.ToUpper (env.TrimSpace q.Name))).Nodup := by
  induction qs generalizing m with
  | nil => simp [Approve.validNames]
  | cons q qs ih =>
    simp only [Approve.validNames]
    by_cases h1 : env.ToUpper (env.ToUpper (env.TrimSpace q.Name)) = env.QOSCoinName
    · simp [h1]
    · by_cases h2 : env.ToUpper (env.TrimSpace q.Name) ∈ m
      · simp [h1, h2]
      · simp only [h1, h2, if_false, not_false_eq_true, if_true, ih, List.mem_cons,
          not_or, List.map_cons, List.nodup_cons, List.mem_map, not_exists, not_and,
          forall_eq_or_imp, ne_eq, true_and]
        constructor
        · rintro ⟨ha, hb, hc⟩
          exact ⟨ha, fun q' hq' => (hb q' hq').2, fun q' hq' => (hb q' hq').1, hc⟩
        · rintro ⟨ha, hb, hc, hd⟩
          exact ⟨ha, fun q' hq' => ⟨hc q' hq', hb q' hq'⟩, hd⟩

end Litewallet

/-! ## The vote-power index -/

namespace Litewallet

/-- Claim C1: parsing the key built from an `int64` vote power and a 20-byte
validator address returns that vote power and that address, with a nil
error. -/
theorem Stake.ParseValidatorVotePowerKey_BuildValidatorByVotePower (votePower : Int)
    (a : List Byte) (hp : isInt64 votePower) (ha : a.length = Stake.AddrLen) :
    (Stake.BuildValidatorByVotePower votePower a >>= Stake.ParseValidatorVotePowerKey)
      = .ok (votePower, a, none) := by
  rw [Stake.BuildValidatorByVotePower_eq]
  show Stake.ParseValidatorVotePowerKey _ = _
  rw [Stake.ParseValidatorVotePowerKey_build _ (uint64_lt _) _ (by rw [ha]; decide),
    int64_uint64 _ hp]

theorem Stake.ParseValidatorVotePowerKey_BuildValidatorByVotePower_witness :
    isInt64 (-1) ∧ (List.replicate 20 (255 : Byte)).length = Stake.AddrLen ∧
    (Stake.BuildValidatorByVotePower (-1) (List.replicate 20 255)
        >>= Stake.ParseValidatorVotePowerKey) = .ok (-1, List.replicate 20 255, none) :=
  ⟨by decide, by decide,
    Stake.ParseValidatorVotePowerKey_BuildValidatorByVotePower (-1) (List.replicate 20 255)
      (by decide) (by decide)⟩

/-- Claim C2, refuted as stated: the vote power `-1` is less than `0`, yet
the key built for `-1` (power bytes all `0xFF`) is not less than the key
built for `0` (power bytes all zero). -/
theorem Stake.BuildValidatorByVotePower_order_counterexample :
    isInt64 (-1) ∧ isInt64 0 ∧ (-1 : Int) < 0 ∧
    Stake.BuildValidatorByVotePower (-1) (List.replicate 20 0)
      = .ok (5 :: (List.replicate 8 255 ++ List.replicate 20 0)) ∧
    Stake.BuildValidatorByVotePower 0 (List.replicate 20 0)
      = .ok (5 :: (List.replicate 8 0 ++ List.replicate 20 0)) ∧
    lexLt (5 :: (List.replicate 8 255 ++ List.replicate 20 0))
      (5 :: (List.replicate 8 0 ++ List.replicate 20 0)) = false := by
  decide

/-- Claim C2, amended: for `int64` vote powers `p1 < p2` and arbitrary
addresses, the key of `p1` is byte-lexicographically less than the key of
`p2` exactly when the two powers have the same sign, that is unless
`p1 < 0 ≤ p2`. -/
theorem Stake.BuildValidatorByVotePower_order_iff (p1 p2 : Int) (a1 a2 : List Byte)
    (h1 : isInt64 p1) (h2 : isInt64 p2) (hlt : p1 < p2) :
    ∃ k1 k2, Stake.BuildValidatorByVotePower p1 a1 = .ok k1 ∧
      Stake.BuildValidatorByVotePower p2 a2 = .ok k2 ∧
      (lexLt k1 k2 = true ↔ (0 ≤ p1 ∨ p2 < 0)) := by
  refine ⟨_, _, Stake.BuildValidatorByVotePower_eq p1 a1,
    Stake.BuildValidatorByVotePower_eq p2 a2, ?_⟩
  rw [lexLt_append_left, lexLt_beBytes _ _ (uint64_lt _) (uint64_lt _)]
  unfold isInt64 at h1 h2
  by_cases hs : 0 ≤ p1 ∨ p2 < 0
  · have hu : uint64 p1 < uint64 p2 := by unfold uint64; omega
    simp [hu, hs]
  · have hu : uint64 p2 < uint64 p1 := by unfold uint64; omega
    have hn : ¬ uint64 p1 < uint64 p2 := by omega
    simp [hu, hn, hs]

theorem Stake.BuildValidatorByVotePower_order_iff_witness :
    isInt64 1 ∧ isInt64 2 ∧ (1 : Int) < 2 ∧
    ∃ k1 k2, Stake.BuildValidatorByVotePower 1 (List.replicate 20 255) = .ok k1 ∧
      Stake.BuildValidatorByVotePower 2 (List.replicate 20 0) = .ok k2 ∧
      (lexLt k1 k2 = true ↔ ((0 : Int) ≤ 1 ∨ (2 : Int) < 0)) :=
  ⟨by decide, by decide, by decide,
    Stake.BuildValidatorByVotePower_order_iff 1 2 (List.replicate 20 255) (List.replicate 20 0)
      (by decide) (by decide) (by decide)⟩

/-- Claim C8: for one vote power and two validator addresses `a1`, `a2` with
`a1` byte-lexicographically less than `a2`, the key of `a1` is less than the
key of `a2`. -/
theorem Stake.BuildValidatorByVotePower_tiebreak (p : Int) (a1 a2 : List Byte)
    (hlt : lexLt a1 a2 = true) :
    ∃ k1 k2, Stake.BuildValidatorByVotePower p a1 = .ok k1 ∧
      Stake.BuildValidatorByVotePower p a2 = .ok k2 ∧ lexLt k1 k2 = true := by
  refine ⟨_, _, Stake.BuildValidatorByVotePower_eq p a1,
    Stake.BuildValidatorByVotePower_eq p a2, ?_⟩
  rw [lexLt_append_left, lexLt_append_left, hlt]

theorem Stake.BuildValidatorByVotePower_tiebreak_witness :
    lexLt (List.replicate 20 0) (List.replicate 19 0 ++ [1]) = true ∧
    ∃ k1 k2, Stake.BuildValidatorByVotePower (-7) (List.replicate 20 0) = .ok k1 ∧
      Stake.BuildValidatorByVotePower (-7) (List.replicate 19 0 ++ [1]) = .ok k2 ∧
      lexLt k1 k2 = true :=
  ⟨by decide,
    Stake.BuildValidatorByVotePower_tiebreak (-7) (List.replicate 20 0)
      (List.replicate 19 0 ++ [1]) (by decide)⟩

/-- Claim C5, refuted as stated: a 30-byte key with the tag `0x05` is parsed
with a nil error, its last 21 bytes being returned as the address. -/
theorem Stake.ParseValidatorVotePowerKey_length_counterexample :
    (5 :: List.replicate 29 (0 : Byte)).length = 30 ∧
    Stake.ParseValidatorVotePowerKey (5 :: List.replicate 29 0)
      = .ok (0, List.replicate 21 0, none) := by
  decide

/-- Claim C5, amended: `ParseValidatorVotePowerKey` never panics, and it
returns a non-nil error exactly when the key has fewer than 10 bytes or does
not start with the tag `0x05`; in particular every key shorter than 10
bytes is rejected. -/
theorem Stake.ParseValidatorVotePowerKey_error_iff (key : List Byte) :
    ∃ votePower valAddress err,
      Stake.ParseValidatorVotePowerKey key = .ok (votePower, valAddress, err) ∧
      (err ≠ none ↔ (key.length < 10 ∨ key.head? ≠ some 0x05)) := by
  unfold Stake.ParseValidatorVotePowerKey
  by_cases hlen : key.length < 10
  · exact ⟨0, [], _, by rw [if_pos hlen]; rfl, by simp [hlen]⟩
  · rw [if_neg hlen]
    match key, hlen with
    | [], hlen => simp at hlen
    | k0 :: rest, hlen =>
      have hr : 9 ≤ rest.length := by simp at hlen; omega
      have hi : index (k0 :: rest) 0 = .ok k0 := rfl
      have ht : index Stake.validatorByVotePowerKey 0 = .ok 5 := rfl
      by_cases hk : k0 = 5
      · subst hk
        have h1 := slice_ok (5 :: rest) 1 9 (by omega) (by simp; omega)
        have h2 := slice_ok (5 :: rest) 9 (5 :: rest).length (by simp; omega) (le_refl _)
        obtain ⟨u, hu⟩ := BigEndian.Uint64_ok_of_length (List.take (9 - 1) (List.drop 1 (5 :: rest)))
          (by simp; omega)
        refine ⟨int64 u, List.take ((5 :: rest).length - 9) (List.drop 9 (5 :: rest)), none,
          ?_, by simp; omega⟩
        simp only [hi, ht, h1, hu, sliceFrom, h2, bind, Except.bind, pure, Except.pure, ne_eq,
          not_true_eq_false, if_false]
      · refine ⟨0, [], some "incorrect key type, not validatorByVotePowerKey key", ?_,
          by simp [hk]⟩
        simp only [hi, ht, bind, Except.bind, pure, Except.pure, ne_eq, hk, not_false_eq_true,
          if_true]

end Litewallet

/-! ## The unbonding and redelegation queues -/

namespace Litewallet

/-- Claim C3, which the code breaks: the key built for the direction
(validator, height, delegator) starts with the tag `0x42` of the direction
(delegator, height, validator), not with the documented `0x43` that
`UnbondingValidatorHeightDelegatorKey` holds and that
`BuildUnbondingByValidatorPrefix` uses; the rest of the layout is the
documented one. -/
theorem Stake.BuildUnbondingValidatorHeightDelegatorKey_tag :
    (∀ (valAddr : List Byte) (height : Int) (delAddr : List Byte),
      Stake.BuildUnbondingValidatorHeightDelegatorKey valAddr height delAddr
        = .ok (0x42 :: (valAddr ++ (beBytes (uint64 height) ++ delAddr))) ∧
      Stake.BuildUnbondingValidatorHeightDelegatorKey valAddr height delAddr
        ≠ .ok (0x43 :: (valAddr ++ (beBytes (uint64 height) ++ delAddr)))) ∧
    Stake.UnbondingValidatorHeightDelegatorKey = [0x43] ∧
    Stake.BuildUnbondingByValidatorPrefix (List.replicate 20 1) = 0x43 :: List.replicate 20 1 ∧
    Stake.BuildUnbondingValidatorHeightDelegatorKey (List.replicate 20 1) 7 (List.replicate 20 2)
      = .ok (0x42 :: (List.replicate 20 1 ++ ([0, 0, 0, 0, 0, 0, 0, 7] ++ List.replicate 20 2))) := by
  refine ⟨fun valAddr height delAddr => ?_, rfl, by decide, by decide⟩
  rw [Stake.BuildUnbondingValidatorHeightDelegatorKey_eq]
  refine ⟨rfl, ?_⟩
  intro h
  have h' := Except.ok.inj h
  simp [Stake.UnbondingDelegatorHeightValidatorKey] at h'

/-- Claim C4, which the code breaks: the key built for the direction
(fromValidator, height, delegator) starts with the tag `0x52`, while
`BuildRedelegationByFromValidatorPrefix` starts with `0x53`; so for no
validator, height and delegator is the prefix a byte prefix of the key. -/
theorem Stake.BuildRedelegationByFromValidatorPrefix_not_prefix :
    (∀ (valAddr : List Byte) (height : Int) (delAddr : List Byte),
      ∃ k, Stake.BuildRedelegationFromValidatorHeightDelegatorKey valAddr height delAddr = .ok k ∧
        hasPrefix k (Stake.BuildRedelegationByFromValidatorPrefix valAddr) = false) ∧
    Stake.BuildRedelegationByFromValidatorPrefix (List.replicate 20 1)
      = 0x53 :: List.replicate 20 1 ∧
    Stake.BuildRedelegationFromValidatorHeightDelegatorKey (List.replicate 20 1) 7
        (List.replicate 20 2)
      = .ok (0x52 :: (List.replicate 20 1 ++ ([0, 0, 0, 0, 0, 0, 0, 7] ++ List.replicate 20 2))) := by
  refine ⟨fun valAddr height delAddr => ?_, by decide, by decide⟩
  refine ⟨_, Stake.BuildRedelegationFromValidatorHeightDelegatorKey_eq valAddr height delAddr, ?_⟩
  simp [hasPrefix, Stake.BuildRedelegationByFromValidatorPrefix,
    Stake.RedelegationDelegatorHeightFromValidatorKey,
    Stake.RedelegationFromValidatorHeightDelegatorKey]

/-- Claim C6: for every `int64` height and 20-byte addresses `del`, `val`,
each of the six unbonding and redelegation parsers returns, without
panicking, the fields its builder was given. -/
theorem Stake.queue_parse_build (h : Int) (del val : List Byte) (hh : isInt64 h)
    (hdel : del.length = Stake.AddrLen) (hval : val.length = Stake.AddrLen) :
    (Stake.BuildUnbondingHeightDelegatorValidatorKey h del val
      >>= Stake.GetUnbondingDelegationHeightDelegatorValidator) = .ok (h, del, val) ∧
    (Stake.BuildUnbondingDelegatorHeightValidatorKey del h val
      >>= Stake.GetUnbondingDelegationDelegatorHeightValidator) = .ok (del, h, val) ∧
    (Stake.BuildUnbondingValidatorHeightDelegatorKey val h del
      >>= Stake.GetUnbondingDelegationValidatorHeightDelegator) = .ok (val, h, del) ∧
    (Stake.BuildRedelegationHeightDelegatorFromValidatorKey h del val
      >>= Stake.GetRedelegationHeightDelegatorFromValidator) = .ok (h, del, val) ∧
    (Stake.BuildRedelegationDelegatorHeightFromValidatorKey del h val
      >>= Stake.GetRedelegationDelegatorHeightFromValidator) = .ok (del, h, val) ∧
    (Stake.BuildRedelegationFromValidatorHeightDelegatorKey val h del
      >>= Stake.GetRedelegationFromValidatorHeightDelegator) = .ok (val, h, del) := by
  have hu := uint64_lt h
  have hi := int64_uint64 h hh
  refine ⟨?_, ?_, ?_, ?_, ?_, ?_⟩
  · rw [Stake.BuildUnbondingHeightDelegatorValidatorKey_eq]
    show Stake.GetUnbondingDelegationHeightDelegatorValidator _ = _
    rw [Stake.GetUnbondingDelegationHeightDelegatorValidator_eq
      Stake.UnbondingHeightDelegatorValidatorKey _ _ _ rfl hu hdel hval, hi]
  · rw [Stake.BuildUnbondingDelegatorHeightValidatorKey_eq]
    show Stake.GetUnbondingDelegationDelegatorHeightValidator _ = _
    rw [Stake.GetUnbondingDelegationDelegatorHeightValidator_eq
      Stake.UnbondingDelegatorHeightValidatorKey _ _ _ rfl hu hdel hval, hi]
  · rw [Stake.BuildUnbondingValidatorHeightDelegatorKey_eq]
    show Stake.GetUnbondingDelegationValidatorHeightDelegator _ = _
    rw [Stake.GetUnbondingDelegationValidatorHeightDelegator_eq
      Stake.UnbondingDelegatorHeightValidatorKey _ _ _ rfl hu hval hdel, hi]
  · rw [Stake.BuildRedelegationHeightDelegatorFromValidatorKey_eq]
    show Stake.GetRedelegationHeightDelegatorFromValidator _ = _
    rw [Stake.GetRedelegationHeightDelegatorFromValidator_eq
      Stake.RedelegationHeightDelegatorFromValidatorKey _ _ _ rfl hu hdel hval, hi]
  · rw [Stake.BuildRedelegationDelegatorHeightFromValidatorKey_eq]
    show Stake.GetRedelegationDelegatorHeightFromValidator _ = _
    rw [Stake.GetRedelegationDelegatorHeightFromValidator_eq
      Stake.RedelegationDelegatorHeightFromValidatorKey _ _ _ rfl hu hdel hval, hi]
  · rw [Stake.BuildRedelegationFromValidatorHeightDelegatorKey_eq]
    show Stake.GetRedelegationFromValidatorHeightDelegator _ = _
    rw [Stake.GetRedelegationFromValidatorHeightDelegator_eq
      Stake.RedelegationDelegatorHeightFromValidatorKey _ _ _ rfl hu hval hdel, hi]

theorem Stake.queue_parse_build_witness :
    isInt64 (-5) ∧ (List.replicate 20 (0 : Byte)).length = Stake.AddrLen ∧
    (List.replicate 20 (255 : Byte)).length = Stake.AddrLen ∧
    (Stake.BuildUnbondingValidatorHeightDelegatorKey (List.replicate 20 255) (-5)
        (List.replicate 20 0)
      >>= Stake.GetUnbondingDelegationValidatorHeightDelegator)
      = .ok (List.replicate 20 255, -5, List.replicate 20 0) :=
  ⟨by decide, by decide, by decide,
    (Stake.queue_parse_build (-5) (List.replicate 20 0) (List.replicate 20 255) (by decide)
      (by decide) (by decide)).2.2.1⟩

/-- Claim C9, which the code breaks: `GetValidatorVoteInfoInWindowIndexAddr`
checks no length; it returns an (index, address) pair for every key of 29
bytes or more, and fails only on shorter keys. A 30-byte key is parsed, its
last byte being ignored. The sibling parser
`GetValidatorHistoryPeriodSummaryAddrPeriod` of the same layout panics
unless the key has exactly 29 bytes. -/
theorem Stake.GetValidatorVoteInfoInWindowIndexAddr_long_key :
    (∀ key : List Byte,
      (∃ r, Stake.GetValidatorVoteInfoInWindowIndexAddr key = .ok r) ↔ 29 ≤ key.length) ∧
    (0x12 :: (List.replicate 20 (1 : Byte) ++ [3, 0, 0, 0, 0, 0, 0, 0, 9])).length = 30 ∧
    Stake.GetValidatorVoteInfoInWindowIndexAddr
        (0x12 :: (List.replicate 20 1 ++ [3, 0, 0, 0, 0, 0, 0, 0, 9]))
      = .ok (3, List.replicate 20 1) ∧
    Distribution.GetValidatorHistoryPeriodSummaryAddrPeriod
        (0x13 :: (List.replicate 20 1 ++ [3, 0, 0, 0, 0, 0, 0, 0, 9]))
      = .error "invalid ValidatorHistoryPeriodSummaryKey length" :=
  ⟨Stake.GetValidatorVoteInfoInWindowIndexAddr_isOk, by decide, by decide, by decide⟩

end Litewallet

/-! ## The distribution keys -/

namespace Litewallet

/-- Claim C7: for every `int64` `n` and 20-byte addresses `val`, `del`, the
three parsers of the distribution keys return, without panicking, the fields
their builders were given. -/
theorem Distribution.parse_build (n : Int) (val del : List Byte) (hn : isInt64 n)
    (hval : val.length = Distribution.AddrLen) (hdel : del.length = Distribution.AddrLen) :
    (Distribution.BuildDelegatorPeriodIncomeKey val del n
      >>= Distribution.GetDelegatorPeriodIncomeHeightAddr) = .ok (val, del, n) ∧
    (Distribution.BuildValidatorHistoryPeriodSummaryKey val n
      >>= Distribution.GetValidatorHistoryPeriodSummaryAddrPeriod) = .ok (val, n) ∧
    Distribution.GetDelegatorEarningStartInfoAddr
      (Distribution.BuildDelegatorEarningStartInfoKey val del) = .ok (val, del) := by
  have hu := uint64_lt n
  have hi := int64_uint64 n hn
  refine ⟨?_, ?_, Distribution.GetDelegatorEarningStartInfoAddr_build val del hval hdel⟩
  · rw [Distribution.BuildDelegatorPeriodIncomeKey_eq]
    show Distribution.GetDelegatorPeriodIncomeHeightAddr _ = _
    rw [Distribution.GetDelegatorPeriodIncomeHeightAddr_eq
      Distribution.delegatorPeriodIncomePrefixKey _ _ _ rfl hu hval hdel, hi]
  · rw [Distribution.BuildValidatorHistoryPeriodSummaryKey_eq]
    show Distribution.GetValidatorHistoryPeriodSummaryAddrPeriod _ = _
    rw [Distribution.GetValidatorHistoryPeriodSummaryAddrPeriod_eq
      Distribution.validatorHistoryPeriodSummaryPrefixKey _ _ rfl hu hval, hi]

theorem Distribution.parse_build_witness :
    isInt64 (-3) ∧ (List.replicate 20 (255 : Byte)).length = Distribution.AddrLen ∧
    (List.replicate 20 (0 : Byte)).length = Distribution.AddrLen ∧
    (Distribution.BuildDelegatorPeriodIncomeKey (List.replicate 20 255) (List.replicate 20 0) (-3)
      >>= Distribution.GetDelegatorPeriodIncomeHeightAddr)
      = .ok (List.replicate 20 255, List.replicate 20 0, -3) :=
  ⟨by decide, by decide, by decide,
    (Distribution.parse_build (-3) (List.replicate 20 255) (List.replicate 20 0) (by decide)
      (by decide) (by decide)).1⟩

end Litewallet

/-! ## Validation of an allowance -/

namespace Litewallet

/-- Claim C10: `Valid` returns nil if and only if `From` and `To` are
non-empty and differ, `IsPositive` holds, no trimmed upper-cased secondary
asset name is the name of the base asset, and the trimmed upper-cased names
are pairwise distinct; otherwise it returns an `InvalidInput` error. The
hypothesis says that upper-casing a name twice is upper-casing it once, as
Go's `strings.ToUpper` does. -/
theorem Approve.Valid_eq_nil_iff (env : Env) (a : Approve)
    (hupper : ∀ q ∈ a.QSCs, env.ToUpper (env.ToUpper (env.TrimSpace q.Name))
      = env.ToUpper (env.TrimSpace q.Name)) :
    (Approve.Valid env a = none ↔
      (a.From ≠ [] ∧ a.To ≠ [] ∧ a.From ≠ a.To ∧ a.IsPositive = true ∧
        (∀ q ∈ a.QSCs, env.ToUpper (env.TrimSpace q.Name) ≠ env.QOSCoinName) ∧
        (a.QSCs.map (fun q => env.ToUpper (env.TrimSpace q.Name))).Nodup)) ∧
    (Approve.Valid env a = none ∨ ∃ reason, Approve.Valid env a = some (Error.InvalidInput reason)) := by
  constructor
  · unfold Approve.Valid
    by_cases h1 : a.From.length = 0
    · have : a.From = [] := List.length_eq_zero.1 h1
      simp [h1, this]
    · have h1' : a.From ≠ [] := fun h => h1 (by rw [h]; rfl)
      by_cases h2 : a.To.length = 0
      · have : a.To = [] := List.length_eq_zero.1 h2
        simp [h1, h2, this]
      · have h2' : a.To ≠ [] := fun h => h2 (by rw [h]; rfl)
        by_cases h3 : a.From = a.To
        · simp [h1, h2, h3, AccAddress.Equals]
        · by_cases h4 : a.IsPositive = true
          · simp only [h1, h2, h3, h4, AccAddress.Equals, if_false, decide_False,
              Bool.false_eq_true, Bool.not_true, Approve.validNames_eq_none_iff, ne_eq,
              not_false_eq_true, true_and, h1', h2', List.not_mem_nil, implies_true]
            constructor
            · rintro ⟨ha, hb⟩
              exact ⟨fun q hq => by rw [← hupper q hq]; exact ha q hq, hb⟩
            · rintro ⟨ha, hb⟩
              exact ⟨fun q hq => by rw [hupper q hq]; exact ha q hq, hb⟩
          · simp [h1, h2, h3, h4, AccAddress.Equals]
  · cases h : Approve.Valid env a with
    | none => exact Or.inl rfl
    | some e =>
      cases e with
      | InvalidInput reason => exact Or.inr ⟨reason, rfl⟩

theorem Approve.Valid_eq_nil_iff_witness :
    (Approve.Valid asciiEnv ⟨[1], [2], some 0, [⟨"abc", some 5⟩, ⟨" usd ", some 1⟩]⟩ = none) ∧
    (Approve.Valid asciiEnv ⟨[1], [1], some 0, [⟨"abc", some 5⟩]⟩
      = some (Error.InvalidInput "addresses of from and to are the same")) ∧
    (Approve.Valid asciiEnv ⟨[1], [2], some 0, [⟨"qOs", some 5⟩]⟩
      = some (Error.InvalidInput "QSCs can not contain qos, not case sensitive")) ∧
    (Approve.Valid asciiEnv ⟨[1], [2], some 0, [⟨"abc", some 5⟩, ⟨"ABC", some 1⟩]⟩
      = some (Error.InvalidInput "repeat qsc:ABC")) ∧
    (Approve.Valid asciiEnv ⟨[1], [2], some 0, [⟨"abc", some 5⟩, ⟨" usd ", some 1⟩]⟩ = none ↔
      (([1] : List Byte) ≠ [] ∧ ([2] : List Byte) ≠ [] ∧ ([1] : List Byte) ≠ [2] ∧
        Approve.IsPositive ⟨[1], [2], some 0, [⟨"abc", some 5⟩, ⟨" usd ", some 1⟩]⟩ = true ∧
        (∀ q ∈ ([⟨"abc", some 5⟩, ⟨" usd ", some 1⟩] : List QSC),
          asciiEnv.ToUpper (asciiEnv.TrimSpace q.Name) ≠ asciiEnv.QOSCoinName) ∧
        (([⟨"abc", some 5⟩, ⟨" usd ", some 1⟩] : List QSC).map
          (fun q => asciiEnv.ToUpper (asciiEnv.TrimSpace q.Name))).Nodup)) :=
  ⟨by decide, by decide, by decide, by decide,
    (Approve.Valid_eq_nil_iff asciiEnv ⟨[1], [2], some 0, [⟨"abc", some 5⟩, ⟨" usd ", some 1⟩]⟩
      (by decide)).1⟩

end Litewallet

/-! ## The allowance: positivity, comparison and arithmetic -/

namespace Litewallet

/-- The rule of `IsPositive`, and its value on a negative base amount. -/
theorem Approve.IsPositive_iff (a : Approve) :
    (a.IsPositive = true ↔
      ((a.QOS.IsNil = true ∨ a.QOS.IsZero = true) ∧ a.QSCs.IsPositive = true) ∨
      (a.QOS.GT (BigInt.NewInt 0) = true ∧ a.IsNotNegative = true)) ∧
    (a.QOS.value < 0 → a.IsPositive = false) := by
  unfold Approve.IsPositive
  constructor
  · by_cases h1 : (a.QOS.IsNil || a.QOS.IsZero) = true
    · have h1' : a.QOS.IsNil = true ∨ a.QOS.IsZero = true := by simpa using h1
      have h2 : a.QOS.GT (BigInt.NewInt 0) = false := by
        rcases h1' with h | h
        · cases hq : a.QOS with
          | none => simp [BigInt.GT, BigInt.value, BigInt.NewInt]
          | some n => simp [hq, BigInt.IsNil] at h
        · simp only [BigInt.IsZero, decide_eq_true_eq] at h
          simp [BigInt.GT, BigInt.value, BigInt.NewInt] at h ⊢
          omega
      simp [h1, h1', h2]
    · have h1' : ¬ (a.QOS.IsNil = true ∨ a.QOS.IsZero = true) := by simpa using h1
      simp only [h1, h1', false_and, false_or, Bool.false_eq_true, if_false]
      by_cases h2 : a.QOS.GT (BigInt.NewInt 0) = true
      · simp [h2]
      · simp [h2]
  · intro hneg
    have h1 : (a.QOS.IsNil || a.QOS.IsZero) = false := by
      cases hq : a.QOS with
      | none => simp [hq, BigInt.value] at hneg
      | some n =>
        simp only [hq, BigInt.value, Option.getD_some] at hneg
        simp [BigInt.IsNil, BigInt.IsZero, BigInt.value]
        omega
    have h2 : a.QOS.GT (BigInt.NewInt 0) = false := by
      simp [BigInt.GT, BigInt.NewInt, BigInt.value] at hneg ⊢
      omega
    simp [h1, h2]

/-- Claim C11: `IsPositive` is true if and only if the base amount is nil or
zero and `QSCs.IsPositive` holds, or the base amount is positive and the
record `IsNotNegative`; it is false for every negative base amount, false
for `{qos:0, assets:{}}` and `{qos:-1, assets:{"ABC":5}}`, true for
`{qos:0, assets:{"ABC":5}}` and `{qos:3, assets:{}}`. -/
theorem Approve.IsPositive_rule :
    (∀ a : Approve,
      (a.IsPositive = true ↔
        ((a.QOS.IsNil = true ∨ a.QOS.IsZero = true) ∧ a.QSCs.IsPositive = true) ∨
        (a.QOS.GT (BigInt.NewInt 0) = true ∧ a.IsNotNegative = true)) ∧
      (a.QOS.value < 0 → a.IsPositive = false)) ∧
    Approve.IsPositive ⟨[1], [2], some 0, []⟩ = false ∧
    Approve.IsPositive ⟨[1], [2], some (-1), [⟨"ABC", some 5⟩]⟩ = false ∧
    Approve.IsPositive ⟨[1], [2], some 0, [⟨"ABC", some 5⟩]⟩ = true ∧
    Approve.IsPositive ⟨[1], [2], some 3, []⟩ = true :=
  ⟨fun a => Approve.IsPositive_iff a, by decide, by decide, by decide, by decide⟩

/-- Claim C12, amended: `IsGTE` is false whenever the base amount of the
record is below `qos`, whatever the secondary assets; whenever it is not
below (greater or equal) the result is that of `QSCs.IsGTE` on the secondary
assets. -/
theorem Approve.IsGTE_eq (r : Approve) (qos : BigInt) (qscs : Litewallet.QSCs) :
    r.IsGTE qos qscs = (decide (qos.value ≤ r.QOS.value) && r.QSCs.IsGTE qscs) := by
  unfold Approve.IsGTE
  simp only [BigInt.LT, BigInt.NilToZero, BigInt.value, Option.getD_some]
  by_cases h : Option.getD r.QOS 0 < Option.getD qos 0
  · have h' : ¬ Option.getD qos 0 ≤ Option.getD r.QOS 0 := by omega
    simp [h, h']
  · have h' : Option.getD qos 0 ≤ Option.getD r.QOS 0 := by omega
    simp [h, h']

/-- Claim C12, refuted as stated: the record `{qos:5, assets:{}}` has a base
amount above `3`, yet it is not `IsGTE` than `(3, [("A",1)])`. -/
theorem Approve.IsGTE_counterexample :
    BigInt.value (some 3) < BigInt.value (some 5) ∧
    Approve.IsGTE ⟨[1], [2], some 5, []⟩ (some 3) [⟨"A", some 1⟩] = false := by
  decide

theorem QSCs.IsEqual_self (coins : QSCs) : coins.IsEqual coins = true := by
  simp [QSCs.IsEqual]

/-- Claim C13: when the base amounts are equal, `IsGT` is true if and only if
the secondary assets of the record are neither `IsLT` than nor `IsEqual` to
`qscs`; and no record is `IsGT` than its own amounts. -/
theorem Approve.IsGT_of_equal_base (r : Approve) (qos : BigInt) (qscs : Litewallet.QSCs)
    (h : r.QOS.value = qos.value) :
    (r.IsGT qos qscs = true ↔ (r.QSCs.IsLT qscs = false ∧ r.QSCs.IsEqual qscs = false)) ∧
    r.IsGT r.QOS r.QSCs = false := by
  constructor
  · unfold Approve.IsGT
    simp only [BigInt.LT, BigInt.Equal, BigInt.NilToZero, BigInt.value, Option.getD_some]
    simp only [BigInt.value] at h
    simp [h]
  · unfold Approve.IsGT
    simp only [BigInt.LT, BigInt.Equal, BigInt.NilToZero, BigInt.value, Option.getD_some]
    simp [QSCs.IsEqual_self]

theorem Approve.IsGT_of_equal_base_witness :
    BigInt.value (some 5) = BigInt.value (some 5) ∧
    Approve.IsGT ⟨[1], [2], some 5, [⟨"A", some 1⟩]⟩ (some 5) [⟨"A", some 1⟩] = false ∧
    Approve.IsGT ⟨[1], [2], some 5, [⟨"A", some 2⟩]⟩ (some 5) [⟨"A", some 1⟩] = true ∧
    (Approve.IsGT ⟨[1], [2], some 5, [⟨"A", some 2⟩]⟩ (some 5) [⟨"A", some 1⟩] = true ↔
      (QSCs.IsLT [⟨"A", some 2⟩] [⟨"A", some 1⟩] = false ∧
        QSCs.IsEqual [⟨"A", some 2⟩] [⟨"A", some 1⟩] = false)) :=
  ⟨by decide, by decide, by decide,
    (Approve.IsGT_of_equal_base ⟨[1], [2], some 5, [⟨"A", some 2⟩]⟩ (some 5) [⟨"A", some 1⟩]
      (by decide)).1⟩

/-- Claim C20, which the code breaks: when the base amount of the record is
above `qos`, `IsGT` returns `qscs.IsNotNegative()`, which does not look at
the secondary assets of the record, while `IsGTE` compares them; so
`{qos:5, assets:{}}` is `IsGT` than `(3, [("A",1)])` without being `IsGTE`
than it. -/
theorem Approve.IsGT_not_IsGTE :
    (∀ (r : Approve) (qos : BigInt) (qscs : Litewallet.QSCs), qos.value < r.QOS.value →
      r.IsGT qos qscs = qscs.IsNotNegative ∧ r.IsGTE qos qscs = r.QSCs.IsGTE qscs) ∧
    Approve.IsGT ⟨[1], [2], some 5, []⟩ (some 3) [⟨"A", some 1⟩] = true ∧
    Approve.IsGTE ⟨[1], [2], some 5, []⟩ (some 3) [⟨"A", some 1⟩] = false := by
  refine ⟨?_, by decide, by decide⟩
  intro r qos qscs h
  unfold Approve.IsGT Approve.IsGTE
  simp only [BigInt.LT, BigInt.Equal, BigInt.NilToZero, BigInt.value, Option.getD_some]
  simp only [BigInt.value] at h
  have h1 : ¬ Option.getD r.QOS 0 < Option.getD qos 0 := by omega
  have h2 : ¬ Option.getD r.QOS 0 = Option.getD qos 0 := by omega
  simp [h1, h2]

/-- On a present base amount the three operations return, with the base
amounts `a + qos`, `a - qos` and `-a`. -/
theorem Approve.arithmetic_of_present_base (qscsNegative : Litewallet.QSCs → Litewallet.QSCs)
    (qscsPlus qscsMinus : Litewallet.QSCs → Litewallet.QSCs → Litewallet.QSCs) (r : Approve)
    (a : Int) (qos : BigInt) (qscs : Litewallet.QSCs) (h : r.QOS = some a) :
    Approve.Plus qscsPlus r qos qscs
      = .ok { From := r.From, To := r.To, QOS := some (a + qos.value),
              QSCs := qscsPlus r.QSCs qscs } ∧
    Approve.Minus qscsMinus r qos qscs
      = .ok { From := r.From, To := r.To, QOS := some (a + -qos.value),
              QSCs := qscsMinus r.QSCs qscs } ∧
    Approve.Negative qscsNegative r
      = .ok { From := r.From, To := r.To, QOS := some (-a), QSCs := qscsNegative r.QSCs } := by
  simp [Approve.Plus, Approve.Minus, Approve.Negative, NewApprove, BigInt.Add, BigInt.Neg,
    BigInt.NilToZero, BigInt.value, h, bind, Except.bind, pure, Except.pure]

end Litewallet

/-! ## The allowance: the canonical string and equality -/

namespace Litewallet

theorem sortStrings_perm (l1 l2 : List GoString) (h : l1.Perm l2) :
    sortStrings l1 = sortStrings l2 := by
  unfold sortStrings
  apply List.eq_of_perm_of_sorted (r := strLE)
  · exact (List.perm_insertionSort strLE l1).trans (h.trans (List.perm_insertionSort strLE l2).symm)
  · exact List.sorted_insertionSort strLE l1
  · exact List.sorted_insertionSort strLE l2

theorem mem_sortStrings (l : List GoString) (x : GoString) : x ∈ sortStrings l ↔ x ∈ l :=
  (List.perm_insertionSort strLE l).mem_iff

/-- The map filled by the loop of `String`, started from the map `m`. -/
theorem namesAndAmounts_foldl (qscs : List QSC) (ns : List GoString) (m : GoString → BigInt) :
    qscs.foldl (fun acc val => (acc.1 ++ [val.Name], Function.update acc.2 val.Name val.Amount))
        (ns, m)
      = (ns ++ qscs.map (fun val => val.Name),
          qscs.foldl (fun m val => Function.update m val.Name val.Amount) m) := by
  induction qscs generalizing ns m with
  | nil => simp
  | cons q qs ih => simp [ih]

theorem amounts_foldl_of_not_mem (qscs : List QSC) (m : GoString → BigInt) (name : GoString)
    (h : name ∉ qscs.map (fun val => val.Name)) :
    (qscs.foldl (fun m val => Function.update m val.Name val.Amount) m) name = m name := by
  induction qscs generalizing m with
  | nil => rfl
  | cons q qs ih =>
    simp only [List.map_cons, List.mem_cons, not_or] at h
    simp only [List.foldl_cons]
    rw [ih _ h.2, Function.update_noteq h.1]

theorem amounts_foldl_of_mem (qscs : List QSC) (m : GoString → BigInt) (q : QSC)
    (hq : q ∈ qscs) (hnodup : (qscs.map (fun val => val.Name)).Nodup) :
    (qscs.foldl (fun m val => Function.update m val.Name val.Amount) m) q.Name = q.Amount := by
  induction qscs generalizing m with
  | nil => simp at hq
  | cons x xs ih =>
    simp only [List.map_cons, List.nodup_cons] at hnodup
    simp only [List.foldl_cons]
    rcases List.mem_cons.1 hq with h | h
    · subst h
      rw [amounts_foldl_of_not_mem _ _ _ hnodup.1, Function.update_same]
    · exact ih _ h hnodup.2

theorem foldl_buf_congr (f g : GoString → GoString) (names : List GoString) (buf : GoString)
    (h : ∀ n ∈ names, f n = g n) :
    names.foldl (fun buf name => (buf ++ (name ++ ":")) ++ (f name ++ " ")) buf
      = names.foldl (fun buf name => (buf ++ (name ++ ":")) ++ (g name ++ " ")) buf := by
  induction names generalizing buf with
  | nil => rfl
  | cons n ns ih =>
    simp only [List.foldl_cons]
    rw [h n (List.mem_cons_self _ _)]
    exact ih _ (fun k hk => h k (List.mem_cons_of_mem _ hk))

theorem Approve.String_perm (fmt : Fmt) (a b : Approve) (hF : a.From = b.From)
    (hT : a.To = b.To) (hQ : a.QOS.value = b.QOS.value) (hperm : a.QSCs.Perm b.QSCs)
    (hnodup : (a.QSCs.map (fun val => val.Name)).Nodup) :
    Approve.String fmt a = Approve.String fmt b := by
  have hnodup' : (b.QSCs.map (fun val => val.Name)).Nodup :=
    (hperm.map _).nodup_iff.1 hnodup
  unfold Approve.String Approve.namesAndAmounts
  simp only [namesAndAmounts_foldl, List.nil_append]
  have hq : a.QOS.NilToZero = b.QOS.NilToZero := by simp [BigInt.NilToZero, hQ]
  rw [hF, hT, hq, sortStrings_perm _ _ (hperm.map _)]
  apply foldl_buf_congr
  intro n hn
  rw [mem_sortStrings] at hn
  obtain ⟨q, hqb, rfl⟩ := List.mem_map.1 hn
  rw [amounts_foldl_of_mem _ _ q (hperm.mem_iff.2 hqb) hnodup,
    amounts_foldl_of_mem _ _ q hqb hnodup']

/-- Claim C14, amended: two records with the same `From`, `To` and base amount
whose secondary-asset lists are permutations of one another and hold no
asset name twice are `Equals`. -/
theorem Approve.Equals_of_perm (fmt : Fmt) (a b : Approve) (hF : a.From = b.From)
    (hT : a.To = b.To) (hQ : a.QOS.value = b.QOS.value) (hperm : a.QSCs.Perm b.QSCs)
    (hnodup : (a.QSCs.map (fun val => val.Name)).Nodup) :
    Approve.Equals fmt a b = true := by
  unfold Approve.Equals
  rw [Approve.String_perm fmt a b hF hT hQ hperm hnodup]
  simp

theorem Approve.Equals_of_perm_witness :
    (([⟨"B", some 2⟩, ⟨"A", some 3⟩] : List QSC)).Perm [⟨"A", some 3⟩, ⟨"B", some 2⟩] ∧
    Approve.Equals plainFmt ⟨[1], [2], some 1, [⟨"B", some 2⟩, ⟨"A", some 3⟩]⟩
      ⟨[1], [2], some 1, [⟨"A", some 3⟩, ⟨"B", some 2⟩]⟩ = true :=
  ⟨by decide,
    Approve.Equals_of_perm plainFmt ⟨[1], [2], some 1, [⟨"B", some 2⟩, ⟨"A", some 3⟩]⟩
      ⟨[1], [2], some 1, [⟨"A", some 3⟩, ⟨"B", some 2⟩]⟩ rfl rfl rfl (by decide) (by decide)⟩

/-- Claim C14, refuted as stated: the lists `[("A",1),("A",2)]` and
`[("A",2),("A",1)]` are permutations of one another, but `String` prints
for each name the amount of the last asset of that name, `A:2 A:2` for the
first record and `A:1 A:1` for the second. -/
theorem Approve.Equals_perm_counterexample :
    (([⟨"A", some 1⟩, ⟨"A", some 2⟩] : List QSC)).Perm [⟨"A", some 2⟩, ⟨"A", some 1⟩] ∧
    Approve.String plainFmt ⟨[65], [66], some 1, [⟨"A", some 1⟩, ⟨"A", some 2⟩]⟩
      = "from:A to:B qos:1 A:2 A:2 " ∧
    Approve.String plainFmt ⟨[65], [66], some 1, [⟨"A", some 2⟩, ⟨"A", some 1⟩]⟩
      = "from:A to:B qos:1 A:1 A:1 " ∧
    Approve.Equals plainFmt ⟨[65], [66], some 1, [⟨"A", some 1⟩, ⟨"A", some 2⟩]⟩
      ⟨[65], [66], some 1, [⟨"A", some 2⟩, ⟨"A", some 1⟩]⟩ = false := by
  decide

end Litewallet

/-! ## Scan order and directions of the queue keys -/

namespace Litewallet

theorem Stake.BuildInactiveValidatorKey_eq (sec : Int) (valAddress : List Byte) :
    Stake.BuildInactiveValidatorKey sec valAddress
      = .ok (Stake.validatorByInactiveKey ++ (beBytes (uint64 sec) ++ valAddress)) := by
  unfold Stake.BuildInactiveValidatorKey
  simp only [BigEndian.PutUint64_make_beBytes, Stake.validatorByInactiveKey, bind, Except.bind,
    copyInto_make_prefix, copyInto_power, copyInto_addr, pure, Except.pure, List.singleton_append]

theorem Stake.BuildUnbondingDelegationByHeightPrefix_eq (height : Int) :
    Stake.BuildUnbondingDelegationByHeightPrefix height
      = .ok (Stake.UnbondingHeightDelegatorValidatorKey ++ (beBytes (uint64 height) ++ [])) := by
  simp [Stake.BuildUnbondingDelegationByHeightPrefix, BigEndian.PutUint64_make_beBytes, bind,
    Except.bind, pure, Except.pure]

theorem uint64_lt_of_nonneg_lt (x1 x2 : Int) (h0 : 0 ≤ x1) (hlt : x1 < x2) (h2 : isInt64 x2) :
    uint64 x1 < uint64 x2 := by
  unfold isInt64 at h2
  unfold uint64
  omega

theorem lexLt_tag_beBytes (t : List Byte) (x1 x2 : Int) (r1 r2 : List Byte) (h0 : 0 ≤ x1)
    (hlt : x1 < x2) (h2 : isInt64 x2) :
    lexLt (t ++ (beBytes (uint64 x1) ++ r1)) (t ++ (beBytes (uint64 x2) ++ r2)) = true := by
  rw [lexLt_append_left, lexLt_beBytes _ _ (uint64_lt _) (uint64_lt _),
    if_pos (uint64_lt_of_nonneg_lt x1 x2 h0 hlt h2)]

/-- Claim C17: for `int64` values `0 <= x1 < x2` and arbitrary addresses the
key built with `x1` is byte-lexicographically less than the key built with
`x2`, for `BuildInactiveValidatorKey`,
`BuildUnbondingHeightDelegatorValidatorKey`,
`BuildRedelegationHeightDelegatorFromValidatorKey` and
`BuildUnbondingDelegationByHeightPrefix`. -/
theorem Stake.bigEndian_scan_order (x1 x2 : Int) (a1 a2 b1 b2 : List Byte) (h0 : 0 ≤ x1)
    (hlt : x1 < x2) (h2 : isInt64 x2) :
    (∃ k1 k2, Stake.BuildInactiveValidatorKey x1 a1 = .ok k1 ∧
      Stake.BuildInactiveValidatorKey x2 a2 = .ok k2 ∧ lexLt k1 k2 = true) ∧
    (∃ k1 k2, Stake.BuildUnbondingHeightDelegatorValidatorKey x1 a1 b1 = .ok k1 ∧
      Stake.BuildUnbondingHeightDelegatorValidatorKey x2 a2 b2 = .ok k2 ∧ lexLt k1 k2 = true) ∧
    (∃ k1 k2, Stake.BuildRedelegationHeightDelegatorFromValidatorKey x1 a1 b1 = .ok k1 ∧
      Stake.BuildRedelegationHeightDelegatorFromValidatorKey x2 a2 b2 = .ok k2 ∧
      lexLt k1 k2 = true) ∧
    (∃ k1 k2, Stake.BuildUnbondingDelegationByHeightPrefix x1 = .ok k1 ∧
      Stake.BuildUnbondingDelegationByHeightPrefix x2 = .ok k2 ∧ lexLt k1 k2 = true) :=
  ⟨⟨_, _, Stake.BuildInactiveValidatorKey_eq x1 a1, Stake.BuildInactiveValidatorKey_eq x2 a2,
      lexLt_tag_beBytes _ x1 x2 _ _ h0 hlt h2⟩,
    ⟨_, _, Stake.BuildUnbondingHeightDelegatorValidatorKey_eq x1 a1 b1,
      Stake.BuildUnbondingHeightDelegatorValidatorKey_eq x2 a2 b2,
      lexLt_tag_beBytes _ x1 x2 _ _ h0 hlt h2⟩,
    ⟨_, _, Stake.BuildRedelegationHeightDelegatorFromValidatorKey_eq x1 a1 b1,
      Stake.BuildRedelegationHeightDelegatorFromValidatorKey_eq x2 a2 b2,
      lexLt_tag_beBytes _ x1 x2 _ _ h0 hlt h2⟩,
    ⟨_, _, Stake.BuildUnbondingDelegationByHeightPrefix_eq x1,
      Stake.BuildUnbondingDelegationByHeightPrefix_eq x2,
      lexLt_tag_beBytes _ x1 x2 _ _ h0 hlt h2⟩⟩

theorem Stake.bigEndian_scan_order_witness :
    (0 : Int) ≤ 255 ∧ (255 : Int) < 256 ∧ isInt64 256 ∧
    ∃ k1 k2, Stake.BuildInactiveValidatorKey 255 (List.replicate 20 255) = .ok k1 ∧
      Stake.BuildInactiveValidatorKey 256 (List.replicate 20 0) = .ok k2 ∧ lexLt k1 k2 = true :=
  ⟨by decide, by decide, by decide,
    (Stake.bigEndian_scan_order 255 256 (List.replicate 20 255) (List.replicate 20 0) [] []
      (by decide) (by decide) (by decide)).1⟩

/-- Claim C19, which the code breaks: `BuildUnbondingValidatorHeightDelegatorKey`
writes the tag `0x42` of the direction (delegator, height, validator); for
equal arguments it returns the very key of
`BuildUnbondingDelegatorHeightValidatorKey`. Only the keys of the direction
(height, delegator, validator), tagged `0x41`, differ from the keys of the
other two directions. -/
theorem Stake.unbonding_directions_collide :
    (∀ (a : List Byte) (h : Int) (b : List Byte),
      Stake.BuildUnbondingDelegatorHeightValidatorKey a h b
        = Stake.BuildUnbondingValidatorHeightDelegatorKey a h b) ∧
    Stake.BuildUnbondingDelegatorHeightValidatorKey (List.replicate 20 1) 7 (List.replicate 20 2)
      = .ok (0x42 :: (List.replicate 20 1 ++ ([0, 0, 0, 0, 0, 0, 0, 7] ++ List.replicate 20 2))) ∧
    Stake.BuildUnbondingValidatorHeightDelegatorKey (List.replicate 20 1) 7 (List.replicate 20 2)
      = .ok (0x42 :: (List.replicate 20 1 ++ ([0, 0, 0, 0, 0, 0, 0, 7] ++ List.replicate 20 2))) ∧
    (∀ (h : Int) (d v a : List Byte) (h' : Int) (b : List Byte),
      Stake.BuildUnbondingHeightDelegatorValidatorKey h d v
        ≠ Stake.BuildUnbondingDelegatorHeightValidatorKey a h' b ∧
      Stake.BuildUnbondingHeightDelegatorValidatorKey h d v
        ≠ Stake.BuildUnbondingValidatorHeightDelegatorKey a h' b) := by
  refine ⟨fun a h b => rfl, by decide, by decide, fun h d v a h' b => ?_⟩
  rw [Stake.BuildUnbondingHeightDelegatorValidatorKey_eq,
    Stake.BuildUnbondingDelegatorHeightValidatorKey_eq,
    Stake.BuildUnbondingValidatorHeightDelegatorKey_eq]
  constructor <;>
  · intro he
    have he' := Except.ok.inj he
    simp [Stake.UnbondingHeightDelegatorValidatorKey,
      Stake.UnbondingDelegatorHeightValidatorKey] at he'

end Litewallet

/-! ## The length guard of the queue parsers -/

namespace Litewallet

theorem uint64_int64 (u : Nat) (hu : u < 2 ^ 64) : uint64 (int64 u) = u := by
  unfold uint64 int64
  split <;> omega

theorem byte_val (b : Byte) : byte b.val = b := by
  apply Fin.ext
  simp [byte]

/-- Every eight bytes are the big-endian encoding of a number below `2 ^ 64`. -/
theorem exists_beBytes (l : List Byte) (h : l.length = 8) : ∃ u, u < 2 ^ 64 ∧ l = beBytes u := by
  match l, h with
  | [b0, b1, b2, b3, b4, b5, b6, b7], _ =>
    refine ⟨b7.val + b6.val * 2 ^ 8 + b5.val * 2 ^ 16 + b4.val * 2 ^ 24 + b3.val * 2 ^ 32
      + b2.val * 2 ^ 40 + b1.val * 2 ^ 48 + b0.val * 2 ^ 56, by omega, ?_⟩
    have e0 := byte_val b0
    have e1 := byte_val b1
    have e2 := byte_val b2
    have e3 := byte_val b3
    have e4 := byte_val b4
    have e5 := byte_val b5
    have e6 := byte_val b6
    have e7 := byte_val b7
    simp only [beBytes, List.cons.injEq, and_true]
    refine ⟨?_, ?_, ?_, ?_, ?_, ?_, ?_, ?_⟩ <;>
    · apply Fin.ext
      simp only [byte]
      omega

/-- A 49-byte key splits into a tag, eight bytes and two 20-byte fields. -/
theorem split_49 (key : List Byte) (h : key.length = 49) :
    ∃ t x a b, key = t ++ (x ++ (a ++ b)) ∧ t.length = 1 ∧ x.length = 8 ∧ a.length = 20 ∧
      b.length = 20 ∧ key.drop 1 = x ++ (a ++ b) := by
  refine ⟨key.take 1, (key.drop 1).take 8, (key.drop 9).take 20, key.drop 29, ?_, ?_, ?_, ?_,
    ?_, ?_⟩
  · have h1 : key.drop 29 = ((key.drop 1).drop 8).drop 20 := by simp
    have h2 : key.drop 9 = (key.drop 1).drop 8 := by simp
    rw [h1, h2, List.take_append_drop, List.take_append_drop, List.take_append_drop]
  · simp [h]
  · simp [h]
  · simp [h]
  · simp [h]
  · have h1 : key.drop 29 = ((key.drop 1).drop 8).drop 20 := by simp
    have h2 : key.drop 9 = (key.drop 1).drop 8 := by simp
    rw [h1, h2, List.take_append_drop, List.take_append_drop]

/-- A 49-byte key splits into a tag, a 20-byte field, eight bytes and a 20-byte field. -/
theorem split_49_mid (key : List Byte) (h : key.length = 49) :
    ∃ t a x b, key = t ++ (a ++ (x ++ b)) ∧ t.length = 1 ∧ a.length = 20 ∧ x.length = 8 ∧
      b.length = 20 ∧ key.drop 1 = a ++ (x ++ b) := by
  refine ⟨key.take 1, (key.drop 1).take 20, (key.drop 21).take 8, key.drop 29, ?_, ?_, ?_, ?_,
    ?_, ?_⟩
  · have h1 : key.drop 29 = ((key.drop 1).drop 20).drop 8 := by simp
    have h2 : key.drop 21 = (key.drop 1).drop 20 := by simp
    rw [h1, h2, List.take_append_drop, List.take_append_drop, List.take_append_drop]
  · simp [h]
  · simp [h]
  · simp [h]
  · simp [h]
  · have h1 : key.drop 29 = ((key.drop 1).drop 20).drop 8 := by simp
    have h2 : key.drop 21 = (key.drop 1).drop 20 := by simp
    rw [h1, h2, List.take_append_drop, List.take_append_drop]


theorem Stake.GetUnbondingDelegationHeightDelegatorValidator_49 (key : List Byte) :
    (Stake.GetUnbondingDelegationHeightDelegatorValidator key
        = .error "invalid UnbondingHeightDelegatorKey length" ↔ key.length ≠ 49) ∧
    (key.length = 49 → ∃ height deleAddr valAddr,
      Stake.GetUnbondingDelegationHeightDelegatorValidator key = .ok (height, deleAddr, valAddr) ∧
      isInt64 height ∧ deleAddr.length = 20 ∧ valAddr.length = 20 ∧
      beBytes (uint64 height) ++ (deleAddr ++ valAddr) = key.drop 1) := by
  constructor
  · by_cases h : key.length = 49
    · obtain ⟨t, x, a, b, hk, ht, hx, ha, hb, -⟩ := split_49 key h
      obtain ⟨u, hu, rfl⟩ := exists_beBytes x hx
      rw [hk, Stake.GetUnbondingDelegationHeightDelegatorValidator_eq t u a b ht hu ha hb]
      simp [← hk, h]
    · unfold Stake.GetUnbondingDelegationHeightDelegatorValidator
      rw [if_pos (by simpa [Stake.AddrLen] using h)]
      simp [h, throw, throwThe, MonadExceptOf.throw]
  · intro h
    obtain ⟨t, x, a, b, hk, ht, hx, ha, hb, hd⟩ := split_49 key h
    obtain ⟨u, hu, rfl⟩ := exists_beBytes x hx
    refine ⟨int64 u, a, b, ?_, isInt64_int64 u, ha, hb, ?_⟩
    · rw [hk, Stake.GetUnbondingDelegationHeightDelegatorValidator_eq t u a b ht hu ha hb]
    · rw [uint64_int64 u hu, hd]

theorem Stake.GetUnbondingDelegationDelegatorHeightValidator_49 (key : List Byte) :
    (Stake.GetUnbondingDelegationDelegatorHeightValidator key
        = .error "invalid UnbondingDelegatorHeightKey length" ↔ key.length ≠ 49) ∧
    (key.length = 49 → ∃ deleAddr height valAddr,
      Stake.GetUnbondingDelegationDelegatorHeightValidator key = .ok (deleAddr, height, valAddr) ∧
      isInt64 height ∧ deleAddr.length = 20 ∧ valAddr.length = 20 ∧
      deleAddr ++ (beBytes (uint64 height) ++ valAddr) = key.drop 1) := by
  constructor
  · by_cases h : key.length = 49
    · obtain ⟨t, a, x, b, hk, ht, ha, hx, hb, -⟩ := split_49_mid key h
      obtain ⟨u, hu, rfl⟩ := exists_beBytes x hx
      rw [hk, Stake.GetUnbondingDelegationDelegatorHeightValidator_eq t u a b ht hu ha hb]
      simp [← hk, h]
    · unfold Stake.GetUnbondingDelegationDelegatorHeightValidator
      rw [if_pos (by simpa [Stake.AddrLen] using h)]
      simp [h, throw, throwThe, MonadExceptOf.throw]
  · intro h
    obtain ⟨t, a, x, b, hk, ht, ha, hx, hb, hd⟩ := split_49_mid key h
    obtain ⟨u, hu, rfl⟩ := exists_beBytes x hx
    refine ⟨a, int64 u, b, ?_, isInt64_int64 u, ha, hb, ?_⟩
    · rw [hk, Stake.GetUnbondingDelegationDelegatorHeightValidator_eq t u a b ht hu ha hb]
    · rw [uint64_int64 u hu, hd]
theorem Stake.GetUnbondingDelegationValidatorHeightDelegator_49 (key : List Byte) :
    (Stake.GetUnbondingDelegationValidatorHeightDelegator key
        = .error "invalid UnbondingDelegatorHeightKey length" ↔ key.length ≠ 49) ∧
    (key.length = 49 → ∃ valAddr height deleAddr,
      Stake.GetUnbondingDelegationValidatorHeightDelegator key = .ok (valAddr, height, deleAddr) ∧
      isInt64 height ∧ valAddr.length = 20 ∧ deleAddr.length = 20 ∧
      valAddr ++ (beBytes (uint64 height) ++ deleAddr) = key.drop 1) := by
  constructor
  · by_cases h : key.length = 49
    · obtain ⟨t, a, x, b, hk, ht, ha, hx, hb, -⟩ := split_49_mid key h
      obtain ⟨u, hu, rfl⟩ := exists_beBytes x hx
      rw [hk, Stake.GetUnbondingDelegationValidatorHeightDelegator_eq t u a b ht hu ha hb]
      simp [← hk, h]
    · unfold Stake.GetUnbondingDelegationValidatorHeightDelegator
      rw [if_pos (by simpa [Stake.AddrLen] using h)]
      simp [h, throw, throwThe, MonadExceptOf.throw]
  · intro h
    obtain ⟨t, a, x, b, hk, ht, ha, hx, hb, hd⟩ := split_49_mid key h
    obtain ⟨u, hu, rfl⟩ := exists_beBytes x hx
    refine ⟨a, int64 u, b, ?_, isInt64_int64 u, ha, hb, ?_⟩
    · rw [hk, Stake.GetUnbondingDelegationValidatorHeightDelegator_eq t u a b ht hu ha hb]
    · rw [uint64_int64 u hu, hd]
theorem Stake.GetRedelegationHeightDelegatorFromValidator_49 (key : List Byte) :
    (Stake.GetRedelegationHeightDelegatorFromValidator key
        = .error "invalid RedelegationHeightDelegatorKey length" ↔ key.length ≠ 49) ∧
    (key.length = 49 → ∃ height deleAddr valAddr,
      Stake.GetRedelegationHeightDelegatorFromValidator key = .ok (height, deleAddr, valAddr) ∧
      isInt64 height ∧ deleAddr.length = 20 ∧ valAddr.length = 20 ∧
      beBytes (uint64 height) ++ (deleAddr ++ valAddr) = key.drop 1) := by
  constructor
  · by_cases h : key.length = 49
    · obtain ⟨t, x, a, b, hk, ht, hx, ha, hb, -⟩ := split_49 key h
      obtain ⟨u, hu, rfl⟩ := exists_beBytes x hx
      rw [hk, Stake.GetRedelegationHeightDelegatorFromValidator_eq t u a b ht hu ha hb]
      simp [← hk, h]
    · unfold Stake.GetRedelegationHeightDelegatorFromValidator
      rw [if_pos (by simpa [Stake.AddrLen] using h)]
      simp [h, throw, throwThe, MonadExceptOf.throw]
  · intro h
    obtain ⟨t, x, a, b, hk, ht, hx, ha, hb, hd⟩ := split_49 key h
    obtain ⟨u, hu, rfl⟩ := exists_beBytes x hx
    refine ⟨int64 u, a, b, ?_, isInt64_int64 u, ha, hb, ?_⟩
    · rw [hk, Stake.GetRedelegationHeightDelegatorFromValidator_eq t u a b ht hu ha hb]
    · rw [uint64_int64 u hu, hd]

theorem Stake.GetRedelegationDelegatorHeightFromValidator_49 (key : List Byte) :
    (Stake.GetRedelegationDelegatorHeightFromValidator key
        = .error "invalid RedelegationDelegatorHeightKey length" ↔ key.length ≠ 49) ∧
    (key.length = 49 → ∃ deleAddr height valAddr,
      Stake.GetRedelegationDelegatorHeightFromValidator key = .ok (deleAddr, height, valAddr) ∧
      isInt64 height ∧ deleAddr.length = 20 ∧ valAddr.length = 20 ∧
      deleAddr ++ (beBytes (uint64 height) ++ valAddr) = key.drop 1) := by
  constructor
  · by_cases h : key.length = 49
    · obtain ⟨t, a, x, b, hk, ht, ha, hx, hb, -⟩ := split_49_mid key h
      obtain ⟨u, hu, rfl⟩ := exists_beBytes x hx
      rw [hk, Stake.GetRedelegationDelegatorHeightFromValidator_eq t u a b ht hu ha hb]
      simp [← hk, h]
    · unfold Stake.GetRedelegationDelegatorHeightFromValidator
      rw [if_pos (by simpa [Stake.AddrLen] using h)]
      simp [h, throw, throwThe, MonadExceptOf.throw]
  · intro h
    obtain ⟨t, a, x, b, hk, ht, ha, hx, hb, hd⟩ := split_49_mid key h
    obtain ⟨u, hu, rfl⟩ := exists_beBytes x hx
    refine ⟨a, int64 u, b, ?_, isInt64_int64 u, ha, hb, ?_⟩
    · rw [hk, Stake.GetRedelegationDelegatorHeightFromValidator_eq t u a b ht hu ha hb]
    · rw [uint64_int64 u hu, hd]
theorem Stake.GetRedelegationFromValidatorHeightDelegator_49 (key : List Byte) :
    (Stake.GetRedelegationFromValidatorHeightDelegator key
        = .error "invalid RedelegationDelegatorHeightKey length" ↔ key.length ≠ 49) ∧
    (key.length = 49 → ∃ valAddr height deleAddr,
      Stake.GetRedelegationFromValidatorHeightDelegator key = .ok (valAddr, height, deleAddr) ∧
      isInt64 height ∧ valAddr.length = 20 ∧ deleAddr.length = 20 ∧
      valAddr ++ (beBytes (uint64 height) ++ deleAddr) = key.drop 1) := by
  constructor
  · by_cases h : key.length = 49
    · obtain ⟨t, a, x, b, hk, ht, ha, hx, hb, -⟩ := split_49_mid key h
      obtain ⟨u, hu, rfl⟩ := exists_beBytes x hx
      rw [hk, Stake.GetRedelegationFromValidatorHeightDelegator_eq t u a b ht hu ha hb]
      simp [← hk, h]
    · unfold Stake.GetRedelegationFromValidatorHeightDelegator
      rw [if_pos (by simpa [Stake.AddrLen] using h)]
      simp [h, throw, throwThe, MonadExceptOf.throw]
  · intro h
    obtain ⟨t, a, x, b, hk, ht, ha, hx, hb, hd⟩ := split_49_mid key h
    obtain ⟨u, hu, rfl⟩ := exists_beBytes x hx
    refine ⟨a, int64 u, b, ?_, isInt64_int64 u, ha, hb, ?_⟩
    · rw [hk, Stake.GetRedelegationFromValidatorHeightDelegator_eq t u a b ht hu ha hb]
    · rw [uint64_int64 u hu, hd]

/-- Claim C18: each of the six queue parsers panics if and only if the key
does not have 49 bytes; for a 49-byte key it returns an `int64` height and
two 20-byte addresses, and the big-endian bytes of the height and the two
addresses, put together in the order of the layout, are `key[1:]`. -/
theorem Stake.queue_parsers_exact_length (key : List Byte) :
    ((Stake.GetUnbondingDelegationHeightDelegatorValidator key
         = .error "invalid UnbondingHeightDelegatorKey length" ↔ key.length ≠ 49) ∧
     (key.length = 49 → ∃ height deleAddr valAddr,
       Stake.GetUnbondingDelegationHeightDelegatorValidator key = .ok (height, deleAddr, valAddr) ∧
       isInt64 height ∧ deleAddr.length = 20 ∧ valAddr.length = 20 ∧
       beBytes (uint64 height) ++ (deleAddr ++ valAddr) = key.drop 1)) ∧
    ((Stake.GetUnbondingDelegationDelegatorHeightValidator key
         = .error "invalid UnbondingDelegatorHeightKey length" ↔ key.length ≠ 49) ∧
     (key.length = 49 → ∃ deleAddr height valAddr,
       Stake.GetUnbondingDelegationDelegatorHeightValidator key = .ok (deleAddr, height, valAddr) ∧
       isInt64 height ∧ deleAddr.length = 20 ∧ valAddr.length = 20 ∧
       deleAddr ++ (beBytes (uint64 height) ++ valAddr) = key.drop 1)) ∧
    ((Stake.GetUnbondingDelegationValidatorHeightDelegator key
         = .error "invalid UnbondingDelegatorHeightKey length" ↔ key.length ≠ 49) ∧
     (key.length = 49 → ∃ valAddr height deleAddr,
       Stake.GetUnbondingDelegationValidatorHeightDelegator key = .ok (valAddr, height, deleAddr) ∧
       isInt64 height ∧ valAddr.length = 20 ∧ deleAddr.length = 20 ∧
       valAddr ++ (beBytes (uint64 height) ++ deleAddr) = key.drop 1)) ∧
    ((Stake.GetRedelegationHeightDelegatorFromValidator key
         = .error "invalid RedelegationHeightDelegatorKey length" ↔ key.length ≠ 49) ∧
     (key.length = 49 → ∃ height deleAddr valAddr,
       Stake.GetRedelegationHeightDelegatorFromValidator key = .ok (height, deleAddr, valAddr) ∧
       isInt64 height ∧ deleAddr.length = 20 ∧ valAddr.length = 20 ∧
       beBytes (uint64 height) ++ (deleAddr ++ valAddr) = key.drop 1)) ∧
    ((Stake.GetRedelegationDelegatorHeightFromValidator key
         = .error "invalid RedelegationDelegatorHeightKey length" ↔ key.length ≠ 49) ∧
     (key.length = 49 → ∃ deleAddr height valAddr,
       Stake.GetRedelegationDelegatorHeightFromValidator key = .ok (deleAddr, height, valAddr) ∧
       isInt64 height ∧ deleAddr.length = 20 ∧ valAddr.length = 20 ∧
       deleAddr ++ (beBytes (uint64 height) ++ valAddr) = key.drop 1)) ∧
    ((Stake.GetRedelegationFromValidatorHeightDelegator key
         = .error "invalid RedelegationDelegatorHeightKey length" ↔ key.length ≠ 49) ∧
     (key.length = 49 → ∃ valAddr height deleAddr,
       Stake.GetRedelegationFromValidatorHeightDelegator key = .ok (valAddr, height, deleAddr) ∧
       isInt64 height ∧ valAddr.length = 20 ∧ deleAddr.length = 20 ∧
       valAddr ++ (beBytes (uint64 height) ++ deleAddr) = key.drop 1)) :=
  ⟨Stake.GetUnbondingDelegationHeightDelegatorValidator_49 key,
    Stake.GetUnbondingDelegationDelegatorHeightValidator_49 key,
    Stake.GetUnbondingDelegationValidatorHeightDelegator_49 key,
    Stake.GetRedelegationHeightDelegatorFromValidator_49 key,
    Stake.GetRedelegationDelegatorHeightFromValidator_49 key,
    Stake.GetRedelegationFromValidatorHeightDelegator_49 key⟩

theorem Stake.queue_parsers_exact_length_witness :
    (0x43 :: (List.replicate 20 (1 : Byte) ++ ([0, 0, 0, 0, 0, 0, 1, 0] ++ List.replicate 20 2))).length
      = 49 ∧
    ∃ valAddr height deleAddr,
      Stake.GetUnbondingDelegationValidatorHeightDelegator
          (0x43 :: (List.replicate 20 1 ++ ([0, 0, 0, 0, 0, 0, 1, 0] ++ List.replicate 20 2)))
        = .ok (valAddr, height, deleAddr) ∧
      isInt64 height ∧ valAddr.length = 20 ∧ deleAddr.length = 20 ∧
      valAddr ++ (beBytes (uint64 height) ++ deleAddr)
        = (0x43 :: (List.replicate 20 1 ++ ([0, 0, 0, 0, 0, 0, 1, 0] ++ List.replicate 20 2))).drop 1 :=
  ⟨by decide,
    (Stake.queue_parsers_exact_length
      (0x43 :: (List.replicate 20 1 ++ ([0, 0, 0, 0, 0, 0, 1, 0] ++ List.replicate 20 2)))).2.2.1.2
      (by decide)⟩

end Litewallet

/-! ## Which keys share storage with the package-level variables -/

namespace Litewallet

namespace Mem


theorem length_le_of_take (st0 st : Store) (h : st.take st0.length = st0) :
    st0.length ≤ st.length := by
  have h' := congrArg List.length h
  simp at h'
  omega

theorem write_take (st0 st : Store) (s : Slice) (off : Nat) (xs : List Byte)
    (h : st.take st0.length = st0) (hp : st0.length ≤ s.ptr) :
    (write st s off xs).take st0.length = st0 := by
  unfold write
  rw [List.set_take, h, List.set_eq_of_length_le hp]

theorem alloc_fresh (st0 st : Store) (content : List Byte) (cap : Nat)
    (h : st.take st0.length = st0) : Fresh st0 (alloc st content cap) := by
  have hl := length_le_of_take st0 st h
  refine ⟨hl, ?_⟩
  show (st ++ _).take st0.length = st0
  rw [List.take_append_of_le_length hl]
  exact h

theorem goAppend_fresh (grow : Nat → Nat) (st0 : Store) (r : Store × Slice) (xs : List Byte)
    (h : Fresh st0 r) : Fresh st0 (goAppend grow r.1 r.2 xs) := by
  unfold goAppend
  split
  · exact ⟨h.1, write_take st0 r.1 r.2 _ _ h.2 h.1⟩
  · exact alloc_fresh st0 r.1 _ _ h.2

theorem goAppend_fresh_of_full (grow : Nat → Nat) (st0 st : Store) (s : Slice) (xs : List Byte)
    (h : st.take st0.length = st0) (hs : s.cap ≤ s.len) (hx : xs ≠ []) :
    Fresh st0 (goAppend grow st s xs) := by
  unfold goAppend
  have hx' : 0 < xs.length := List.length_pos.2 hx
  rw [if_neg (by omega)]
  exact alloc_fresh st0 st _ _ h


theorem beBytes_ne_nil (v : Nat) : beBytes v ≠ [] := by
  simp [beBytes]

theorem leBytes_ne_nil (v : Nat) : leBytes v ≠ [] := by
  simp [leBytes]

theorem getD_append_length (st : Store) (arr : List Byte) :
    (st ++ [arr]).getD st.length [] = arr := by
  simp [List.getD_eq_getElem?_getD]

/-- Filling a buffer obtained from `make([]byte, 8)` succeeds, leaves the older
arrays alone, and the buffer then holds the eight bytes written. -/
theorem putUint64_goMake (enc : Nat → List Byte) (henc : ∀ v, (enc v).length = 8)
    (st0 st : Store) (v : Nat) (h : st.take st0.length = st0) :
    ∃ st1, putUint64 enc (goMake st 8).1 (goMake st 8).2 v = .ok st1 ∧
      st1.take st0.length = st0 ∧ read st1 (goMake st 8).2 = enc v := by
  have hf := alloc_fresh st0 st (List.replicate 8 0) 8 h
  refine ⟨write (goMake st 8).1 (goMake st 8).2 0 (enc v), ?_, ?_, ?_⟩
  · simp [putUint64, goMake, alloc]
  · exact write_take st0 _ _ _ _ hf.2 hf.1
  · simp [read, write, goMake, alloc, henc v, List.getD_eq_getElem?_getD]

end Mem

open Mem

theorem Mem.Stake.BuildValidatorKey_fresh (grow : Nat → Nat) (st : Store) (valAddress : List Byte) (hvalAddress : valAddress ≠ []) :
    Fresh st (Mem.Stake.BuildValidatorKey grow st valAddress) := by
  unfold Mem.Stake.BuildValidatorKey
  exact goAppend_fresh_of_full grow st st _ _ (List.take_length st) (by decide) hvalAddress

theorem Mem.Stake.BuildDelegationByDelValKey_fresh (grow : Nat → Nat) (st : Store) (delAdd : List Byte) (valAdd : List Byte) (hdelAdd : delAdd ≠ []) :
    Fresh st (Mem.Stake.BuildDelegationByDelValKey grow st delAdd valAdd) := by
  unfold Mem.Stake.BuildDelegationByDelValKey
  exact goAppend_fresh grow st _ _ (goAppend_fresh_of_full grow st st _ _ (List.take_length st) (by decide) hdelAdd)

theorem Mem.Stake.BuildDelegationByValDelKey_fresh (grow : Nat → Nat) (st : Store) (valAdd : List Byte) (delAdd : List Byte) (hvalAdd : valAdd ≠ []) :
    Fresh st (Mem.Stake.BuildDelegationByValDelKey grow st valAdd delAdd) := by
  unfold Mem.Stake.BuildDelegationByValDelKey
  exact goAppend_fresh grow st _ _ (goAppend_fresh_of_full grow st st _ _ (List.take_length st) (by decide) hvalAdd)

theorem Mem.Stake.BuildDelegationByValidatorPrefix_fresh (grow : Nat → Nat) (st : Store) (valAdd : List Byte) (hvalAdd : valAdd ≠ []) :
    Fresh st (Mem.Stake.BuildDelegationByValidatorPrefix grow st valAdd) := by
  unfold Mem.Stake.BuildDelegationByValidatorPrefix
  exact goAppend_fresh_of_full grow st st _ _ (List.take_length st) (by decide) hvalAdd

theorem Mem.Stake.BuildValidatorVoteInfoKey_fresh (grow : Nat → Nat) (st : Store) (valAddress : List Byte) (hvalAddress : valAddress ≠ []) :
    Fresh st (Mem.Stake.BuildValidatorVoteInfoKey grow st valAddress) := by
  unfold Mem.Stake.BuildValidatorVoteInfoKey
  exact goAppend_fresh_of_full grow st st _ _ (List.take_length st) (by decide) hvalAddress

theorem Mem.Stake.BuildValidatorVoteInfoInWindowPrefixKey_fresh (grow : Nat → Nat) (st : Store) (valAddress : List Byte) (hvalAddress : valAddress ≠ []) :
    Fresh st (Mem.Stake.BuildValidatorVoteInfoInWindowPrefixKey grow st valAddress) := by
  unfold Mem.Stake.BuildValidatorVoteInfoInWindowPrefixKey
  exact goAppend_fresh_of_full grow st st _ _ (List.take_length st) (by decide) hvalAddress

theorem Mem.Stake.BuildValidatorVoteInfoInWindowKey_fresh (grow : Nat → Nat) (st : Store) (index : Int) (valAddress : List Byte) (hvalAddress : valAddress ≠ []) :
    FreshOk st (Mem.Stake.BuildValidatorVoteInfoInWindowKey grow st index valAddress) := by
  obtain ⟨st1, h1, h2, h3⟩ := putUint64_goMake leBytes (leBytes_length) st st (uint64 index)
    (List.take_length st)
  unfold Mem.Stake.BuildValidatorVoteInfoInWindowKey
  simp only [h1, h3, bind, Except.bind, pure, Except.pure]
  refine ⟨_, rfl, ?_⟩
  exact goAppend_fresh grow st _ _ (goAppend_fresh_of_full grow st st1 _ _ h2 (by decide) hvalAddress)

theorem Mem.Stake.BuildUnbondingHeightDelegatorValidatorKey_fresh (grow : Nat → Nat) (st : Store) (height : Int) (deleAddr : List Byte) (valAddr : List Byte) :
    FreshOk st (Mem.Stake.BuildUnbondingHeightDelegatorValidatorKey grow st height deleAddr valAddr) := by
  obtain ⟨st1, h1, h2, h3⟩ := putUint64_goMake beBytes (beBytes_length) st st (uint64 height)
    (List.take_length st)
  unfold Mem.Stake.BuildUnbondingHeightDelegatorValidatorKey
  simp only [h1, h3, bind, Except.bind, pure, Except.pure]
  refine ⟨_, rfl, ?_⟩
  exact goAppend_fresh grow st _ _ (goAppend_fresh grow st _ _ (goAppend_fresh_of_full grow st st1 _ _ h2 (by decide) (beBytes_ne_nil _)))

theorem Mem.Stake.BuildUnbondingDelegationByHeightPrefix_fresh (grow : Nat → Nat) (st : Store) (height : Int) :
    FreshOk st (Mem.Stake.BuildUnbondingDelegationByHeightPrefix grow st height) := by
  obtain ⟨st1, h1, h2, h3⟩ := putUint64_goMake beBytes (beBytes_length) st st (uint64 height)
    (List.take_length st)
  unfold Mem.Stake.BuildUnbondingDelegationByHeightPrefix
  simp only [h1, h3, bind, Except.bind, pure, Except.pure]
  refine ⟨_, rfl, ?_⟩
  exact goAppend_fresh_of_full grow st st1 _ _ h2 (by decide) (beBytes_ne_nil _)

theorem Mem.Stake.BuildUnbondingDelegatorHeightValidatorKey_fresh (grow : Nat → Nat) (st : Store) (delAddr : List Byte) (height : Int) (valAddr : List Byte) (hdelAddr : delAddr ≠ []) :
    FreshOk st (Mem.Stake.BuildUnbondingDelegatorHeightValidatorKey grow st delAddr height valAddr) := by
  obtain ⟨st1, h1, h2, h3⟩ := putUint64_goMake beBytes (beBytes_length) st st (uint64 height)
    (List.take_length st)
  unfold Mem.Stake.BuildUnbondingDelegatorHeightValidatorKey
  simp only [h1, h3, bind, Except.bind, pure, Except.pure]
  refine ⟨_, rfl, ?_⟩
  exact goAppend_fresh grow st _ _ (goAppend_fresh grow st _ _ (goAppend_fresh_of_full grow st st1 _ _ h2 (by decide) hdelAddr))

theorem Mem.Stake.BuildUnbondingByDelegatorPrefix_fresh (grow : Nat → Nat) (st : Store) (delAddr : List Byte) (hdelAddr : delAddr ≠ []) :
    Fresh st (Mem.Stake.BuildUnbondingByDelegatorPrefix grow st delAddr) := by
  unfold Mem.Stake.BuildUnbondingByDelegatorPrefix
  exact goAppend_fresh_of_full grow st st _ _ (List.take_length st) (by decide) hdelAddr

theorem Mem.Stake.BuildUnbondingValidatorHeightDelegatorKey_fresh (grow : Nat → Nat) (st : Store) (valAddr : List Byte) (height : Int) (delAddr : List Byte) (hvalAddr : valAddr ≠ []) :
    FreshOk st (Mem.Stake.BuildUnbondingValidatorHeightDelegatorKey grow st valAddr height delAddr) := by
  obtain ⟨st1, h1, h2, h3⟩ := putUint64_goMake beBytes (beBytes_length) st st (uint64 height)
    (List.take_length st)
  unfold Mem.Stake.BuildUnbondingValidatorHeightDelegatorKey
  simp only [h1, h3, bind, Except.bind, pure, Except.pure]
  refine ⟨_, rfl, ?_⟩
  exact goAppend_fresh grow st _ _ (goAppend_fresh grow st _ _ (goAppend_fresh_of_full grow st st1 _ _ h2 (by decide) hvalAddr))

theorem Mem.Stake.BuildUnbondingByValidatorPrefix_fresh (grow : Nat → Nat) (st : Store) (valAddr : List Byte) (hvalAddr : valAddr ≠ []) :
    Fresh st (Mem.Stake.BuildUnbondingByValidatorPrefix grow st valAddr) := by
  unfold Mem.Stake.BuildUnbondingByValidatorPrefix
  exact goAppend_fresh_of_full grow st st _ _ (List.take_length st) (by decide) hvalAddr

theorem Mem.Stake.BuildRedelegationHeightDelegatorFromValidatorKey_fresh (grow : Nat → Nat) (st : Store) (height : Int) (delAdd : List Byte) (valAddr : List Byte) :
    FreshOk st (Mem.Stake.BuildRedelegationHeightDelegatorFromValidatorKey grow st height delAdd valAddr) := by
  obtain ⟨st1, h1, h2, h3⟩ := putUint64_goMake beBytes (beBytes_length) st st (uint64 height)
    (List.take_length st)
  unfold Mem.Stake.BuildRedelegationHeightDelegatorFromValidatorKey
  simp only [h1, h3, bind, Except.bind, pure, Except.pure]
  refine ⟨_, rfl, ?_⟩
  exact goAppend_fresh grow st _ _ (goAppend_fresh grow st _ _ (goAppend_fresh_of_full grow st st1 _ _ h2 (by decide) (beBytes_ne_nil _)))

theorem Mem.Stake.BuildRedelegationByHeightPrefix_fresh (grow : Nat → Nat) (st : Store) (height : Int) :
    FreshOk st (Mem.Stake.BuildRedelegationByHeightPrefix grow st height) := by
  obtain ⟨st1, h1, h2, h3⟩ := putUint64_goMake beBytes (beBytes_length) st st (uint64 height)
    (List.take_length st)
  unfold Mem.Stake.BuildRedelegationByHeightPrefix
  simp only [h1, h3, bind, Except.bind, pure, Except.pure]
  refine ⟨_, rfl, ?_⟩
  exact goAppend_fresh_of_full grow st st1 _ _ h2 (by decide) (beBytes_ne_nil _)

theorem Mem.Stake.BuildRedelegationDelegatorHeightFromValidatorKey_fresh (grow : Nat → Nat) (st : Store) (delAddr : List Byte) (height : Int) (valAddr : List Byte) (hdelAddr : delAddr ≠ []) :
    FreshOk st (Mem.Stake.BuildRedelegationDelegatorHeightFromValidatorKey grow st delAddr height valAddr) := by
  obtain ⟨st1, h1, h2, h3⟩ := putUint64_goMake beBytes (beBytes_length) st st (uint64 height)
    (List.take_length st)
  unfold Mem.Stake.BuildRedelegationDelegatorHeightFromValidatorKey
  simp only [h1, h3, bind, Except.bind, pure, Except.pure]
  refine ⟨_, rfl, ?_⟩
  exact goAppend_fresh grow st _ _ (goAppend_fresh grow st _ _ (goAppend_fresh_of_full grow st st1 _ _ h2 (by decide) hdelAddr))

theorem Mem.Stake.BuildRedelegationByDelegatorPrefix_fresh (grow : Nat → Nat) (st : Store) (delAddr : List Byte) (hdelAddr : delAddr ≠ []) :
    Fresh st (Mem.Stake.BuildRedelegationByDelegatorPrefix grow st delAddr) := by
  unfold Mem.Stake.BuildRedelegationByDelegatorPrefix
  exact goAppend_fresh_of_full grow st st _ _ (List.take_length st) (by decide) hdelAddr

theorem Mem.Stake.BuildRedelegationFromValidatorHeightDelegatorKey_fresh (grow : Nat → Nat) (st : Store) (valAddr : List Byte) (height : Int) (delAddr : List Byte) (hvalAddr : valAddr ≠ []) :
    FreshOk st (Mem.Stake.BuildRedelegationFromValidatorHeightDelegatorKey grow st valAddr height delAddr) := by
  obtain ⟨st1, h1, h2, h3⟩ := putUint64_goMake beBytes (beBytes_length) st st (uint64 height)
    (List.take_length st)
  unfold Mem.Stake.BuildRedelegationFromValidatorHeightDelegatorKey
  simp only [h1, h3, bind, Except.bind, pure, Except.pure]
  refine ⟨_, rfl, ?_⟩
  exact goAppend_fresh grow st _ _ (goAppend_fresh grow st _ _ (goAppend_fresh_of_full grow st st1 _ _ h2 (by decide) hvalAddr))

theorem Mem.Stake.BuildRedelegationByFromValidatorPrefix_fresh (grow : Nat → Nat) (st : Store) (valAddr : List Byte) (hvalAddr : valAddr ≠ []) :
    Fresh st (Mem.Stake.BuildRedelegationByFromValidatorPrefix grow st valAddr) := by
  unfold Mem.Stake.BuildRedelegationByFromValidatorPrefix
  exact goAppend_fresh_of_full grow st st _ _ (List.take_length st) (by decide) hvalAddr

theorem Mem.Distribution.BuildDelegatorEarningStartInfoKey_fresh (grow : Nat → Nat) (st : Store) (validatorAddr : List Byte) (delegatorAddress : List Byte) (hvalidatorAddr : validatorAddr ≠ []) :
    Fresh st (Mem.Distribution.BuildDelegatorEarningStartInfoKey grow st validatorAddr delegatorAddress) := by
  unfold Mem.Distribution.BuildDelegatorEarningStartInfoKey
  exact goAppend_fresh grow st _ _ (goAppend_fresh_of_full grow st st _ _ (List.take_length st) (by decide) hvalidatorAddr)

theorem Mem.Distribution.BuildValidatorHistoryPeriodSummaryPrefixKey_fresh (grow : Nat → Nat) (st : Store) (validatorAddr : List Byte) (hvalidatorAddr : validatorAddr ≠ []) :
    Fresh st (Mem.Distribution.BuildValidatorHistoryPeriodSummaryPrefixKey grow st validatorAddr) := by
  unfold Mem.Distribution.BuildValidatorHistoryPeriodSummaryPrefixKey
  exact goAppend_fresh_of_full grow st st _ _ (List.take_length st) (by decide) hvalidatorAddr

theorem Mem.Distribution.BuildValidatorHistoryPeriodSummaryKey_fresh (grow : Nat → Nat) (st : Store) (validatorAddr : List Byte) (period : Int) (hvalidatorAddr : validatorAddr ≠ []) :
    FreshOk st (Mem.Distribution.BuildValidatorHistoryPeriodSummaryKey grow st validatorAddr period) := by
  obtain ⟨st1, h1, h2, h3⟩ := putUint64_goMake leBytes (leBytes_length) st st (uint64 period)
    (List.take_length st)
  unfold Mem.Distribution.BuildValidatorHistoryPeriodSummaryKey
  simp only [h1, h3, bind, Except.bind, pure, Except.pure]
  refine ⟨_, rfl, ?_⟩
  exact goAppend_fresh grow st _ _ (goAppend_fresh_of_full grow st st1 _ _ h2 (by decide) hvalidatorAddr)

theorem Mem.Distribution.BuildValidatorCurrentPeriodSummaryKey_fresh (grow : Nat → Nat) (st : Store) (validatorAddr : List Byte) (hvalidatorAddr : validatorAddr ≠ []) :
    Fresh st (Mem.Distribution.BuildValidatorCurrentPeriodSummaryKey grow st validatorAddr) := by
  unfold Mem.Distribution.BuildValidatorCurrentPeriodSummaryKey
  exact goAppend_fresh_of_full grow st st _ _ (List.take_length st) (by decide) hvalidatorAddr

theorem Mem.Distribution.BuildDelegatorPeriodIncomeKey_fresh (grow : Nat → Nat) (st : Store) (validatorAddr : List Byte) (delegatorAddress : List Byte) (height : Int) :
    FreshOk st (Mem.Distribution.BuildDelegatorPeriodIncomeKey grow st validatorAddr delegatorAddress height) := by
  obtain ⟨st1, h1, h2, h3⟩ := putUint64_goMake leBytes (leBytes_length) st st (uint64 height)
    (List.take_length st)
  unfold Mem.Distribution.BuildDelegatorPeriodIncomeKey
  simp only [h1, h3, bind, Except.bind, pure, Except.pure]
  refine ⟨_, rfl, ?_⟩
  exact goAppend_fresh grow st _ _ (goAppend_fresh grow st _ _ (goAppend_fresh_of_full grow st st1 _ _ h2 (by decide) (leBytes_ne_nil _)))

theorem Mem.Distribution.BuildDelegatorPeriodIncomePrefixKey_fresh (grow : Nat → Nat) (st : Store) (height : Int) :
    FreshOk st (Mem.Distribution.BuildDelegatorPeriodIncomePrefixKey grow st height) := by
  obtain ⟨st1, h1, h2, h3⟩ := putUint64_goMake leBytes (leBytes_length) st st (uint64 height)
    (List.take_length st)
  unfold Mem.Distribution.BuildDelegatorPeriodIncomePrefixKey
  simp only [h1, h3, bind, Except.bind, pure, Except.pure]
  refine ⟨_, rfl, ?_⟩
  exact goAppend_fresh_of_full grow st st1 _ _ h2 (by decide) (leBytes_ne_nil _)

theorem Mem.Distribution.BuildValidatorEcoFeePoolKey_fresh (grow : Nat → Nat) (st : Store) (validatorAddr : List Byte) (hvalidatorAddr : validatorAddr ≠ []) :
    Fresh st (Mem.Distribution.BuildValidatorEcoFeePoolKey grow st validatorAddr) := by
  unfold Mem.Distribution.BuildValidatorEcoFeePoolKey
  exact goAppend_fresh_of_full grow st st _ _ (List.take_length st) (by decide) hvalidatorAddr

namespace Mem

/-- A `copy` into a slice allocated after `st0`, within its capacity, succeeds
and leaves the arrays of `st0` alone. -/
theorem goCopy_fresh (st0 st : Store) (dst : Slice) (lo hi : Nat) (src : List Byte)
    (h : st.take st0.length = st0) (hp : st0.length ≤ dst.ptr) (hb : lo ≤ hi ∧ hi ≤ dst.cap) :
    ∃ st1, goCopy st dst lo hi src = .ok st1 ∧ st1.take st0.length = st0 := by
  refine ⟨_, by rw [goCopy, if_pos hb], write_take st0 st dst _ _ h hp⟩

theorem goMake_cap (st : Store) (n : Nat) : (goMake st n).2.cap = n := by
  simp [goMake, alloc]

theorem goMake_fresh (st0 st : Store) (n : Nat) (h : st.take st0.length = st0) :
    Fresh st0 (goMake st n) :=
  alloc_fresh st0 st _ _ h

theorem goMake_ptr_le (st0 st : Store) (n m : Nat) (h : st.take st0.length = st0) :
    st0.length ≤ (goMake st n).2.ptr ∧ ((goMake (goMake st n).1 m).1).take st0.length = st0 :=
  ⟨(goMake_fresh st0 st n h).1, (goMake_fresh st0 _ m (goMake_fresh st0 st n h).2).2⟩

end Mem


theorem Mem.Stake.BuildValidatorByConsensusKey_fresh (st : Store) (consensusAddress : List Byte) :
    FreshOk st (Mem.Stake.BuildValidatorByConsensusKey st consensusAddress) := by
  have hf := goMake_fresh st st (1 + consensusAddress.length) (List.take_length st)
  have hc := goMake_cap st (1 + consensusAddress.length)
  obtain ⟨st1, e1, t1⟩ := goCopy_fresh st _ (goMake st (1 + consensusAddress.length)).2 0 1
    (read (goMake st (1 + consensusAddress.length)).1 Mem.Stake.validatorByConsensusKey)
    hf.2 hf.1 (by rw [hc]; omega)
  obtain ⟨st2, e2, t2⟩ := goCopy_fresh st st1 (goMake st (1 + consensusAddress.length)).2 1
    (consensusAddress.length + 1) consensusAddress t1 hf.1 (by rw [hc]; omega)
  unfold Mem.Stake.BuildValidatorByConsensusKey
  simp only [e1, e2, bind, Except.bind, pure, Except.pure]
  exact ⟨_, rfl, hf.1, t2⟩

theorem Mem.Stake.BuildInactiveValidatorKey_fresh (st : Store) (sec : Int)
    (valAddress : List Byte) :
    FreshOk st (Mem.Stake.BuildInactiveValidatorKey st sec valAddress) := by
  have hf := goMake_fresh st st (1 + 8 + valAddress.length) (List.take_length st)
  have hc := goMake_cap st (1 + 8 + valAddress.length)
  obtain ⟨st1, e1, t1, -⟩ := putUint64_goMake beBytes beBytes_length st
    (goMake st (1 + 8 + valAddress.length)).1 (uint64 sec) hf.2
  obtain ⟨st2, e2, t2⟩ := goCopy_fresh st st1 (goMake st (1 + 8 + valAddress.length)).2 0 1
    (read st1 Mem.Stake.validatorByInactiveKey) t1 hf.1 (by rw [hc]; omega)
  obtain ⟨st3, e3, t3⟩ := goCopy_fresh st st2 (goMake st (1 + 8 + valAddress.length)).2 1 9
    (read st2 (goMake (goMake st (1 + 8 + valAddress.length)).1 8).2) t2 hf.1
    (by rw [hc]; omega)
  obtain ⟨st4, e4, t4⟩ := goCopy_fresh st st3 (goMake st (1 + 8 + valAddress.length)).2 9
    (valAddress.length + 9) valAddress t3 hf.1 (by rw [hc]; omega)
  unfold Mem.Stake.BuildInactiveValidatorKey
  simp only [e1, e2, e3, e4, bind, Except.bind, pure, Except.pure]
  exact ⟨_, rfl, hf.1, t4⟩

theorem Mem.Stake.BuildInactiveValidatorKeyByTime_fresh (st : Store) (unix : Int)
    (valAddress : List Byte) :
    FreshOk st (Mem.Stake.BuildInactiveValidatorKeyByTime st unix valAddress) :=
  Mem.Stake.BuildInactiveValidatorKey_fresh st unix valAddress

theorem Mem.Stake.BuildValidatorByVotePower_fresh (st : Store) (votePower : Int)
    (valAddress : List Byte) :
    FreshOk st (Mem.Stake.BuildValidatorByVotePower st votePower valAddress) := by
  have hf := goMake_fresh st st (1 + 8 + valAddress.length) (List.take_length st)
  have hc := goMake_cap st (1 + 8 + valAddress.length)
  obtain ⟨st1, e1, t1, -⟩ := putUint64_goMake beBytes beBytes_length st
    (goMake st (1 + 8 + valAddress.length)).1 (uint64 votePower) hf.2
  obtain ⟨st2, e2, t2⟩ := goCopy_fresh st st1 (goMake st (1 + 8 + valAddress.length)).2 0 1
    (read st1 Mem.Stake.validatorByVotePowerKey) t1 hf.1 (by rw [hc]; omega)
  obtain ⟨st3, e3, t3⟩ := goCopy_fresh st st2 (goMake st (1 + 8 + valAddress.length)).2 1 9
    (read st2 (goMake (goMake st (1 + 8 + valAddress.length)).1 8).2) t2 hf.1
    (by rw [hc]; omega)
  obtain ⟨st4, e4, t4⟩ := goCopy_fresh st st3 (goMake st (1 + 8 + valAddress.length)).2 9
    (valAddress.length + 9) valAddress t3 hf.1 (by rw [hc]; omega)
  unfold Mem.Stake.BuildValidatorByVotePower
  simp only [e1, e2, e3, e4, bind, Except.bind, pure, Except.pure]
  exact ⟨_, rfl, hf.1, t4⟩

/-- Writing through a fresh slice leaves the arrays of the older store alone. -/
theorem Mem.setIndex_fresh (st0 : Store) (r : Store × Slice) (i : Nat) (b : Byte)
    (st1 : Store) (h : Fresh st0 r) (hs : setIndex r.1 r.2 i b = .ok st1) :
    st1.take st0.length = st0 := by
  unfold setIndex at hs
  split at hs
  · cases hs
    exact write_take st0 r.1 r.2 _ _ h.2 h.1
  · cases hs

/-- Claim C16, amended: every build or prefix function that takes arguments
returns a slice on a backing array allocated by the call, leaving every
older array (those of the package-level variables and of the keys returned
before) unchanged, provided the first field appended to the prefix is not
empty; and writing through such a slice changes no older array. -/
theorem Mem.builders_fresh (grow : Nat → Nat) (st : Mem.Store) (n : Int) (a b : List Byte)
    (ha : a ≠ []) :
    (Fresh st (Mem.Stake.BuildValidatorKey grow st a) ∧
    Fresh st (Mem.Stake.BuildDelegationByDelValKey grow st a b) ∧
    Fresh st (Mem.Stake.BuildDelegationByValDelKey grow st a b) ∧
    Fresh st (Mem.Stake.BuildDelegationByValidatorPrefix grow st a) ∧
    Fresh st (Mem.Stake.BuildValidatorVoteInfoKey grow st a) ∧
    Fresh st (Mem.Stake.BuildValidatorVoteInfoInWindowPrefixKey grow st a) ∧
    FreshOk st (Mem.Stake.BuildValidatorVoteInfoInWindowKey grow st n a) ∧
    FreshOk st (Mem.Stake.BuildUnbondingHeightDelegatorValidatorKey grow st n a b) ∧
    FreshOk st (Mem.Stake.BuildUnbondingDelegationByHeightPrefix grow st n) ∧
    FreshOk st (Mem.Stake.BuildUnbondingDelegatorHeightValidatorKey grow st a n b) ∧
    Fresh st (Mem.Stake.BuildUnbondingByDelegatorPrefix grow st a) ∧
    FreshOk st (Mem.Stake.BuildUnbondingValidatorHeightDelegatorKey grow st a n b) ∧
    Fresh st (Mem.Stake.BuildUnbondingByValidatorPrefix grow st a) ∧
    FreshOk st (Mem.Stake.BuildRedelegationHeightDelegatorFromValidatorKey grow st n a b) ∧
    FreshOk st (Mem.Stake.BuildRedelegationByHeightPrefix grow st n) ∧
    FreshOk st (Mem.Stake.BuildRedelegationDelegatorHeightFromValidatorKey grow st a n b) ∧
    Fresh st (Mem.Stake.BuildRedelegationByDelegatorPrefix grow st a) ∧
    FreshOk st (Mem.Stake.BuildRedelegationFromValidatorHeightDelegatorKey grow st a n b) ∧
    Fresh st (Mem.Stake.BuildRedelegationByFromValidatorPrefix grow st a) ∧
    FreshOk st (Mem.Stake.BuildValidatorByConsensusKey st a) ∧
    FreshOk st (Mem.Stake.BuildInactiveValidatorKey st n a) ∧
    FreshOk st (Mem.Stake.BuildInactiveValidatorKeyByTime st n a) ∧
    FreshOk st (Mem.Stake.BuildValidatorByVotePower st n a) ∧
    Fresh st (Mem.Distribution.BuildDelegatorEarningStartInfoKey grow st a b) ∧
    Fresh st (Mem.Distribution.BuildValidatorHistoryPeriodSummaryPrefixKey grow st a) ∧
    FreshOk st (Mem.Distribution.BuildValidatorHistoryPeriodSummaryKey grow st a n) ∧
    Fresh st (Mem.Distribution.BuildValidatorCurrentPeriodSummaryKey grow st a) ∧
    FreshOk st (Mem.Distribution.BuildDelegatorPeriodIncomeKey grow st a b n) ∧
    FreshOk st (Mem.Distribution.BuildDelegatorPeriodIncomePrefixKey grow st n) ∧
    Fresh st (Mem.Distribution.BuildValidatorEcoFeePoolKey grow st a)) ∧
    (∀ (r : Mem.Store × Mem.Slice) (i : Nat) (x : Byte) (st1 : Mem.Store),
      Mem.Fresh st r → Mem.setIndex r.1 r.2 i x = .ok st1 → st1.take st.length = st) :=
  ⟨⟨Mem.Stake.BuildValidatorKey_fresh grow st a ha,
    Mem.Stake.BuildDelegationByDelValKey_fresh grow st a b ha,
    Mem.Stake.BuildDelegationByValDelKey_fresh grow st a b ha,
    Mem.Stake.BuildDelegationByValidatorPrefix_fresh grow st a ha,
    Mem.Stake.BuildValidatorVoteInfoKey_fresh grow st a ha,
    Mem.Stake.BuildValidatorVoteInfoInWindowPrefixKey_fresh grow st a ha,
    Mem.Stake.BuildValidatorVoteInfoInWindowKey_fresh grow st n a ha,
    Mem.Stake.BuildUnbondingHeightDelegatorValidatorKey_fresh grow st n a b,
    Mem.Stake.BuildUnbondingDelegationByHeightPrefix_fresh grow st n,
    Mem.Stake.BuildUnbondingDelegatorHeightValidatorKey_fresh grow st a n b ha,
    Mem.Stake.BuildUnbondingByDelegatorPrefix_fresh grow st a ha,
    Mem.Stake.BuildUnbondingValidatorHeightDelegatorKey_fresh grow st a n b ha,
    Mem.Stake.BuildUnbondingByValidatorPrefix_fresh grow st a ha,
    Mem.Stake.BuildRedelegationHeightDelegatorFromValidatorKey_fresh grow st n a b,
    Mem.Stake.BuildRedelegationByHeightPrefix_fresh grow st n,
    Mem.Stake.BuildRedelegationDelegatorHeightFromValidatorKey_fresh grow st a n b ha,
    Mem.Stake.BuildRedelegationByDelegatorPrefix_fresh grow st a ha,
    Mem.Stake.BuildRedelegationFromValidatorHeightDelegatorKey_fresh grow st a n b ha,
    Mem.Stake.BuildRedelegationByFromValidatorPrefix_fresh grow st a ha,
    Mem.Stake.BuildValidatorByConsensusKey_fresh st a,
    Mem.Stake.BuildInactiveValidatorKey_fresh st n a,
    Mem.Stake.BuildInactiveValidatorKeyByTime_fresh st n a,
    Mem.Stake.BuildValidatorByVotePower_fresh st n a,
    Mem.Distribution.BuildDelegatorEarningStartInfoKey_fresh grow st a b ha,
    Mem.Distribution.BuildValidatorHistoryPeriodSummaryPrefixKey_fresh grow st a ha,
    Mem.Distribution.BuildValidatorHistoryPeriodSummaryKey_fresh grow st a n ha,
    Mem.Distribution.BuildValidatorCurrentPeriodSummaryKey_fresh grow st a ha,
    Mem.Distribution.BuildDelegatorPeriodIncomeKey_fresh grow st a b n,
    Mem.Distribution.BuildDelegatorPeriodIncomePrefixKey_fresh grow st n,
    Mem.Distribution.BuildValidatorEcoFeePoolKey_fresh grow st a ha⟩,
    fun r i x st1 h hs => Mem.setIndex_fresh st r i x st1 h hs⟩

theorem Mem.builders_fresh_witness :
    List.replicate 20 (1 : Byte) ≠ [] ∧
    Mem.Fresh Mem.initStore
      (Mem.Stake.BuildValidatorKey (fun n => 2 * n) Mem.initStore (List.replicate 20 1)) :=
  ⟨by decide,
    (Mem.builders_fresh (fun n => 2 * n) Mem.initStore 7 (List.replicate 20 1)
      (List.replicate 20 2) (by decide)).1.1⟩

/-- Claim C16, refuted as stated: `BuildValidatorPrefixKey` and
`BuildCommunityFeePoolKey` return the package-level slice itself, and so does
`BuildValidatorKey` for an empty address. After `k[0] = 0xFF` on the key `k`
that `BuildValidatorPrefixKey` returned, `BuildValidatorKey` builds keys
that start with `0xFF` instead of `0x01`. -/
theorem Mem.accessor_alias_counterexample :
    (Mem.Stake.BuildValidatorPrefixKey Mem.initStore).2 = Mem.Stake.validatorKey ∧
    ¬ Mem.Fresh Mem.initStore (Mem.Stake.BuildValidatorPrefixKey Mem.initStore) ∧
    (Mem.Distribution.BuildCommunityFeePoolKey Mem.initStore).2
      = Mem.Distribution.communityFeePoolKey ∧
    ¬ Mem.Fresh Mem.initStore (Mem.Distribution.BuildCommunityFeePoolKey Mem.initStore) ∧
    (Mem.Stake.BuildValidatorKey (fun n => 2 * n) Mem.initStore []).2 = Mem.Stake.validatorKey ∧
    Mem.read (Mem.Stake.BuildValidatorKey (fun n => 2 * n) Mem.initStore [7, 7]).1
      (Mem.Stake.BuildValidatorKey (fun n => 2 * n) Mem.initStore [7, 7]).2 = [0x01, 7, 7] ∧
    (Mem.setIndex Mem.initStore (Mem.Stake.BuildValidatorPrefixKey Mem.initStore).2 0 0xFF).map
      (fun st1 => Mem.read (Mem.Stake.BuildValidatorKey (fun n => 2 * n) st1 [7, 7]).1
        (Mem.Stake.BuildValidatorKey (fun n => 2 * n) st1 [7, 7]).2) = .ok [0xFF, 7, 7] := by
  decide

end Litewallet
